import Mathlib

/-!
# MIL_ADC driver: sequencer step allocation and data acquisition

A shallow embedding of `MIL_TIVA_Drivers/MIL_ADC/MIL_ADC.c`.

* Machine integers are natural numbers.  `uint8_t`/`uint16_t` arithmetic in
  `MIL_ADCSeqInit` never leaves its range (the bitfield is masked to 12 bits, so
  `step_need ≤ 12`, `channel ≤ 12`, `i < 8`); the 32-bit poll counter of
  `MIL_ADCGetData` does wrap and is reduced modulo `2 ^ 32`.
* Values of type `double` are non-negative dyadic rationals, and every `double`
  operation rounds its exact result to a 53-bit significand (`Binary64`).
* Calls into the vendor driver library (TivaWare `driverlib`) are recorded, in
  program order, as a list of `HwCall` values.  Values read back from the
  hardware (interrupt status, sample FIFO) are inputs of the embedding.
-/

namespace MIL_ADC

/-! ## Types of `MIL_ADC.h` -/

/-- Status enumeration `mil_adc_stat_t` of `MIL_ADC.h`. -/
inductive mil_adc_stat_t where
  | MIL_ADC_OK
  | MIL_ADC_NOK
  deriving DecidableEq, Repr

/-- Trigger enumeration `mil_trig_t` of `MIL_ADC.h`. -/
inductive mil_trig_t where
  | MIL_ADC_SoftTrig
  | MIL_ADC_TimTrig
  | MIL_ADC_AlwaysTrig
  deriving DecidableEq, Repr

open mil_adc_stat_t mil_trig_t

/-! ## Constants of the vendor headers

The driver includes the TivaWare headers `inc/hw_memmap.h`, `driverlib/adc.h`
and `driverlib/sysctl.h`, which are not part of the repository; the constants it
uses are given the values these headers define for the TM4C123. -/

/-- Base address of ADC module 0 (`inc/hw_memmap.h`). -/
def ADC0_BASE : Nat := 0x40038000
/-- Base address of ADC module 1 (`inc/hw_memmap.h`). -/
def ADC1_BASE : Nat := 0x40039000
/-- Peripheral identifier of ADC module 0 (`driverlib/sysctl.h`). -/
def SYSCTL_PERIPH_ADC0 : Nat := 0xf0003800
/-- Peripheral identifier of ADC module 1 (`driverlib/sysctl.h`). -/
def SYSCTL_PERIPH_ADC1 : Nat := 0xf0003801
/-- Processor (software) trigger source (`driverlib/adc.h`). -/
def ADC_TRIGGER_PROCESSOR : Nat := 0x00000000
/-- Timer trigger source (`driverlib/adc.h`). -/
def ADC_TRIGGER_TIMER : Nat := 0x00000005
/-- Free-running trigger source (`driverlib/adc.h`). -/
def ADC_TRIGGER_ALWAYS : Nat := 0x0000000F
/-- Step flag: interrupt enable (`driverlib/adc.h`). -/
def ADC_CTL_IE : Nat := 0x00000040
/-- Step flag: end of sequence (`driverlib/adc.h`). -/
def ADC_CTL_END : Nat := 0x00000020

/-- Sequence number `MIL_ADC_SEQ0`. -/
def MIL_ADC_SEQ0 : Nat := 0x00
/-- Sequence number `MIL_ADC_SEQ1`. -/
def MIL_ADC_SEQ1 : Nat := 0x01
/-- Sequence number `MIL_ADC_SEQ2`. -/
def MIL_ADC_SEQ2 : Nat := 0x02
/-- Sequence number `MIL_ADC_SEQ3`. -/
def MIL_ADC_SEQ3 : Nat := 0x03

/-! ## Hardware interface -/

/-- One call into the vendor driver library, with its integer arguments. -/
inductive HwCall where
  | SysCtlPeripheralEnable (periph : Nat)
  | SysCtlPeripheralReset (periph : Nat)
  | ADCSequenceConfigure (base seq trigger priority : Nat)
  | ADCSequenceStepConfigure (base seq step config : Nat)
  | ADCSequenceEnable (base seq : Nat)
  | ADCIntClear (base seq : Nat)
  | ADCIntStatus (base seq : Nat) (masked : Bool)
  | ADCSequenceDataGet (base seq : Nat)
  | ADCProcessorTrigger (base seq : Nat)
  | GPIOPinTypeADC (port pins : Nat)
  deriving DecidableEq, Repr

/-! ## `MIL_ADCSeqInit` -/

/-- The `switch(trig)` of `MIL_ADCSeqInit` that selects the trigger source
(the `default` branch serves values outside the enumeration). -/
def local_trig : mil_trig_t → Nat
  | MIL_ADC_SoftTrig => ADC_TRIGGER_PROCESSOR
  | MIL_ADC_TimTrig => ADC_TRIGGER_TIMER
  | MIL_ADC_AlwaysTrig => ADC_TRIGGER_ALWAYS

/-- The `switch(seq_num)` of `MIL_ADCSeqInit` that yields the step limit. -/
def step_max (seq_num : Nat) : Nat :=
  if seq_num = MIL_ADC_SEQ0 then 8
  else if seq_num = MIL_ADC_SEQ1 then 4
  else if seq_num = MIL_ADC_SEQ2 then 4
  else if seq_num = MIL_ADC_SEQ3 then 4
  else 1

/-- The loop `while(temp_field){ if(temp_field & 0x01) step_need++;
temp_field = temp_field >> 1; }`; the result is the final `step_need`. -/
def countLoop (temp_field step_need : Nat) : Nat :=
  if h : temp_field ≠ 0 then
    countLoop (temp_field >>> 1)
      (if temp_field &&& 0x01 ≠ 0 then step_need + 1 else step_need)
  else step_need
termination_by temp_field
decreasing_by
  simp only [Nat.shiftRight_eq_div_pow]
  omega

/-- The loop `while(!temp_field){ channel++; temp_field = pin_bitfield &
(0x01<<channel); if(channel > 11) return MIL_ADC_NOK; }`, entered with
`temp_field = 0`.  The result is `none` when the function returns
`MIL_ADC_NOK` from inside the loop, and the final `channel` otherwise. -/
def scanLoop (pin_bitfield channel : Nat) : Option Nat :=
  if h : channel + 1 > 11 then none
  else if pin_bitfield &&& (0x01 <<< (channel + 1)) = 0 then
    scanLoop pin_bitfield (channel + 1)
  else some (channel + 1)
termination_by 12 - channel
decreasing_by omega

/-- The loop `for(uint8_t i = 0; i < actual_steps; i++){ ... }` from the state
`(i, channel)`.  The first component is `some MIL_ADC_NOK` when the function
returns from inside the loop and `none` when the loop runs to its end; the
second component lists the calls made. -/
def stepLoop (base seq_num pin_bitfield actual_steps i channel : Nat) :
    Option mil_adc_stat_t × List HwCall :=
  if _h : i < actual_steps then
    match (if pin_bitfield &&& (0x01 <<< channel) = 0 then scanLoop pin_bitfield channel
           else some channel) with
    | none => (some MIL_ADC_NOK, [])
    | some channel =>
      let config_field :=
        if i + 1 = actual_steps then channel ||| (ADC_CTL_END ||| ADC_CTL_IE) else channel
      let rest := stepLoop base seq_num pin_bitfield actual_steps (i + 1) (channel + 1)
      (rest.1, HwCall.ADCSequenceStepConfigure base seq_num i config_field :: rest.2)
  else (none, [])
termination_by actual_steps - i
decreasing_by omega

/-- The body of `MIL_ADCSeqInit` after the check of `base`. -/
def seqInitBody (base seq_num pin_bitfield : Nat) (trig : mil_trig_t) :
    mil_adc_stat_t × List HwCall :=
  let pin_bitfield := pin_bitfield &&& 0x0FFF
  let configure := HwCall.ADCSequenceConfigure base seq_num (local_trig trig) seq_num
  let step_max := step_max seq_num
  let step_need := countLoop pin_bitfield 0
  let actual_steps := if step_need > step_max then step_max else step_need
  let steps := stepLoop base seq_num pin_bitfield actual_steps 0 0
  match steps.1 with
  | some r => (r, configure :: steps.2)
  | none =>
    (MIL_ADC_OK, configure :: steps.2 ++
      [HwCall.ADCSequenceEnable base seq_num, HwCall.ADCIntClear base seq_num])

/-- The function `MIL_ADCSeqInit(base, seq_num, pin_bitfield, trig)`: the returned
status and the driver-library calls made, in order. -/
def MIL_ADCSeqInit (base seq_num pin_bitfield : Nat) (trig : mil_trig_t) :
    mil_adc_stat_t × List HwCall :=
  if base = ADC0_BASE then
    let r := seqInitBody base seq_num pin_bitfield trig
    (r.1, HwCall.SysCtlPeripheralEnable SYSCTL_PERIPH_ADC0 ::
          HwCall.SysCtlPeripheralReset SYSCTL_PERIPH_ADC0 :: r.2)
  else if base = ADC1_BASE then
    let r := seqInitBody base seq_num pin_bitfield trig
    (r.1, HwCall.SysCtlPeripheralEnable SYSCTL_PERIPH_ADC1 ::
          HwCall.SysCtlPeripheralReset SYSCTL_PERIPH_ADC1 :: r.2)
  else (MIL_ADC_NOK, [])

/-- The sequence steps programmed by a run: the `(step, config)` arguments of
its `ADCSequenceStepConfigure` calls, in program order. -/
def programmedSteps : List HwCall → List (Nat × Nat)
  | [] => []
  | HwCall.ADCSequenceStepConfigure _ _ step config :: cs => (step, config) :: programmedSteps cs
  | _ :: cs => programmedSteps cs

/-! ## `MIL_ADCGetData` -/

/-- Outcome of a run of `MIL_ADCGetData`: the returned status, the memory
behind `pbuffer`, the sample FIFO of the sequencer, and the driver-library
calls made, in order. -/
structure GetDataResult where
  ret : mil_adc_stat_t
  pbuffer : List Nat
  fifo : List Nat
  calls : List HwCall

/-- The loop `while(!ADCIntStatus(base,seq_num,false)){ timeout_cnt++;
if(timeout_cnt == timeout) return MIL_ADC_NOK; }`.  `intStatus k` is the value
the `k`-th call of `ADCIntStatus` returns and `polls` the number of calls made
so far; `timeout_cnt` and `timeout` are `uint32_t`, hence the reductions modulo
`2 ^ 32`.  The first component is `some MIL_ADC_NOK` when the function returns
from inside the loop and `none` when the loop ends; the second lists the calls. -/
def pollLoop (base seq_num timeout : Nat) (intStatus : Nat → Nat) (polls timeout_cnt : Nat) :
    Option mil_adc_stat_t × List HwCall :=
  if intStatus polls = 0 then
    if _h : (timeout_cnt + 1) % 2 ^ 32 = timeout % 2 ^ 32 then
      (some MIL_ADC_NOK, [HwCall.ADCIntStatus base seq_num false])
    else
      let rest := pollLoop base seq_num timeout intStatus (polls + 1) ((timeout_cnt + 1) % 2 ^ 32)
      (rest.1, HwCall.ADCIntStatus base seq_num false :: rest.2)
  else (none, [HwCall.ADCIntStatus base seq_num false])
termination_by (timeout % 2 ^ 32 + 2 ^ 32 - 1 - timeout_cnt % 2 ^ 32) % 2 ^ 32
decreasing_by omega

/-- Effect of the vendor call `ADCSequenceDataGet(base, seq_num, pbuffer)` on
the memory behind `pbuffer`: the samples of the FIFO are stored from the start
of the buffer. -/
def dataGet (fifo pbuffer : List Nat) : List Nat :=
  fifo ++ pbuffer.drop fifo.length

/-- The part of `MIL_ADCGetData` that follows the polling loop.  When the
function has returned from inside the loop nothing else happens; otherwise the
samples are fetched with `ADCSequenceDataGet`, the interrupt flag is cleared
with `ADCIntClear`, and `MIL_ADC_OK` is returned. -/
def getDataAfterLoop (base seq_num : Nat) (pbuffer fifo : List Nat) :
    Option mil_adc_stat_t × List HwCall → GetDataResult
  | (some r, calls) => { ret := r, pbuffer := pbuffer, fifo := fifo, calls := calls }
  | (none, calls) =>
    { ret := MIL_ADC_OK
      pbuffer := dataGet fifo pbuffer
      fifo := []
      calls := calls ++
        [HwCall.ADCSequenceDataGet base seq_num, HwCall.ADCIntClear base seq_num] }

/-- The function `MIL_ADCGetData(base, seq_num, timeout, pbuffer)`, run against a sequencer
whose `k`-th interrupt-status read returns `intStatus k` and whose sample FIFO
holds `fifo`. -/
def MIL_ADCGetData (base seq_num timeout : Nat) (pbuffer : List Nat)
    (intStatus : Nat → Nat) (fifo : List Nat) : GetDataResult :=
  getDataAfterLoop base seq_num pbuffer fifo (pollLoop base seq_num timeout intStatus 0 0)

/-- Number of `ADCIntStatus` calls (polls of the completion flag) in a run. -/
def pollCount : List HwCall → Nat
  | [] => 0
  | HwCall.ADCIntStatus _ _ _ :: cs => pollCount cs + 1
  | _ :: cs => pollCount cs

/-! ## `MIL_ADC_HextoFloat` -/

/-- The function `MIL_ADC_HextoFloat(adc_value)`.  The initialiser `3/0xFFF` divides two
`int` constants, so the division is the integer one; its result is converted to
`float`.  Values of type `float` are modelled by rationals: the conversions of
an integer below `2 ^ 24` and the product with the slope obtained are exact. -/
def MIL_ADC_HextoFloat (adc_value : Nat) : ℚ :=
  let slope : ℚ := ((3 / 0xFFF : Nat) : ℚ)
  let voltage : ℚ := (adc_value : ℚ) * slope
  voltage

/-! ## Specification-side notions -/

/-- The requested channels at or above `lo`: the `c` with `lo ≤ c < 12` whose
bit is set in the bitfield, in ascending order. -/
def requestedFrom (pin_bitfield lo : Nat) : List Nat :=
  (List.range' lo (12 - lo)).filter (fun c => pin_bitfield.testBit c)

/-- The requested channel set: the channels `0..11` whose bit is set, ascending. -/
def requested (pin_bitfield : Nat) : List Nat :=
  (List.range 12).filter (fun c => pin_bitfield.testBit c)

/-- The configuration word given to step `i` of `n` for channel `ch`. -/
def stepConfig (n i ch : Nat) : Nat :=
  if i + 1 = n then ch ||| (ADC_CTL_END ||| ADC_CTL_IE) else ch

/-- The step-configuration calls that assign the channels `chs` to the steps
`i, i + 1, ...` of a sequence of `n` steps. -/
def stepCalls (base seq_num n : Nat) : Nat → List Nat → List HwCall
  | _, [] => []
  | i, ch :: chs =>
    HwCall.ADCSequenceStepConfigure base seq_num i (stepConfig n i ch) ::
      stepCalls base seq_num n (i + 1) chs

/-- The `(step, config)` pairs that assign the channels `chs` to the steps
`i, i + 1, ...` of a sequence of `n` steps. -/
def stepPlan (n : Nat) : Nat → List Nat → List (Nat × Nat)
  | _, [] => []
  | i, ch :: chs => (i, stepConfig n i ch) :: stepPlan n (i + 1) chs

/-- The channel ids a run programs into its steps, in step order: the channel
field of each step's configuration word, that is its low four bits, which
`ADCSequenceStepConfigure` writes to the input multiplexer. -/
def programmedChannels (calls : List HwCall) : List Nat :=
  (programmedSteps calls).map (fun s => s.2 &&& 0x0F)

/-- Whether a step configuration word carries `ADC_CTL_END | ADC_CTL_IE`. -/
def terminalFlag (config : Nat) : Bool :=
  config &&& (ADC_CTL_END ||| ADC_CTL_IE) == (ADC_CTL_END ||| ADC_CTL_IE)

/-- The number of polls after which `MIL_ADCGetData` gives up when the
completion flag stays clear: the first positive counter value that equals
`timeout` modulo `2 ^ 32`. -/
def pollBudget (timeout : Nat) : Nat :=
  if timeout % 2 ^ 32 = 0 then 2 ^ 32 else timeout % 2 ^ 32

/-- The slot plan of a run, as `(slot_index, channel_id, is_terminal)` triples:
each programmed step with the channel field and the terminal flag of its
configuration word. -/
def slotPlan (calls : List HwCall) : List (Nat × Nat × Bool) :=
  (programmedSteps calls).map (fun s => (s.1, s.2 &&& 0x0F, terminalFlag s.2))

/-! ## `MIL_ADC_HEXtoASCII` -/

/-- The function `MIL_ADC_HEXtoASCII(adc_value, pstring)`: the three bytes stored
at `pstring[0]`, `pstring[1]`, `pstring[2]`. -/
def MIL_ADC_HEXtoASCII (adc_value : Nat) : List Nat :=
  let hex_char :=
    [(adc_value >>> 8) &&& 0x000F, (adc_value >>> 4) &&& 0x000F, adc_value &&& 0x000F]
  hex_char.map (fun c => if c > 9 then c + 0x37 else c + 0x30)

/-- Whether a byte is one of the characters `0`..`9`, `A`..`F`. -/
def isHexDigit (c : Nat) : Prop :=
  ('0'.toNat ≤ c ∧ c ≤ '9'.toNat) ∨ ('A'.toNat ≤ c ∧ c ≤ 'F'.toNat)

/-- The value of a hexadecimal digit character `0`..`9`, `A`..`F`. -/
def hexDigitValue (c : Nat) : Nat :=
  if 'A'.toNat ≤ c then c - 'A'.toNat + 10 else c - '0'.toNat

/-- Reading a string of hexadecimal digit characters, most significant first. -/
def readHex (cs : List Nat) : Nat :=
  cs.foldl (fun acc c => 16 * acc + hexDigitValue c) 0

/-! ## Double-precision arithmetic

`MIL_ADC_FloattoASCII` computes with `double`.  The values are modelled exactly:
a finite non-negative IEEE 754 binary64 number is a dyadic rational, and every
operation returns the exact result rounded to a 53-bit significand, to nearest,
ties to even.  The exponent range is not modelled (no value of the function
comes near the overflow or underflow thresholds), nor are negative numbers
(no operand is negative). -/

/-- A finite non-negative binary floating-point value, `num / 2 ^ exp2`. -/
structure Binary64 where
  num : Nat
  exp2 : Nat
  deriving DecidableEq, Repr

/-- Number of binary digits of `n`, by repeated halving (`fuel ≥` that number). -/
def bitLengthSlow : Nat → Nat → Nat
  | 0, _ => 0
  | fuel + 1, n => bif n == 0 then 0 else bitLengthSlow fuel (n / 2) + 1

/-- Number of binary digits of `n < 2 ^ 2 ^ k`, by bisection on the exponent. -/
def bitLengthFast : Nat → Nat → Nat
  | 0, n => bif n == 0 then 0 else 1
  | k + 1, n =>
    bif Nat.blt n (1 <<< (1 <<< k)) then bitLengthFast k n
    else 1 <<< k + bitLengthFast k (n >>> (1 <<< k))

/-- Number of binary digits of `n`: the least `b` with `n < 2 ^ b`. -/
def bitLength (n : Nat) : Nat :=
  bif Nat.blt n (1 <<< 256) then bitLengthFast 8 n else bitLengthSlow n n

/-- The integer nearest to `n / d`, the even one when two are equally near. -/
def roundHalfEven (n d : Nat) : Nat :=
  bif Nat.blt d (2 * (n % d)) || (2 * (n % d) == d && n / d % 2 == 1) then n / d + 1
  else n / d

/-- The binary64 number nearest to `p / q` (`q > 0`), ties to even.  The
quotient is scaled by a power of two so that it lies in `[2 ^ 52, 2 ^ 53)`,
rounded to an integer, and scaled back. -/
def round53 (p q : Nat) : Binary64 :=
  bif p == 0 then ⟨0, 0⟩
  else
    let up := (bitLength q + 53) - bitLength p
    let down := bitLength p - (bitLength q + 53)
    let down := bif Nat.ble (1 <<< 53) (p <<< up / q <<< down) then down + 1 else down
    let m := roundHalfEven (p <<< up) (q <<< down)
    bif Nat.ble down up then ⟨m, up - down⟩ else ⟨m <<< (down - up), 0⟩

/-- Conversion of a non-negative integer to `double`. -/
def Binary64.ofNat (n : Nat) : Binary64 :=
  bif Nat.blt n (1 <<< 53) then ⟨n, 0⟩ else round53 n 1

/-- The product `x * y` in `double`. -/
def Binary64.mul (x y : Binary64) : Binary64 :=
  round53 (x.num * y.num) (1 <<< (x.exp2 + y.exp2))

/-- The quotient `x / y` in `double` (`y ≠ 0`). -/
def Binary64.div (x y : Binary64) : Binary64 :=
  round53 (x.num <<< y.exp2) (y.num <<< x.exp2)

/-- The difference `x - y` in `double` (`y ≤ x`). -/
def Binary64.sub (x y : Binary64) : Binary64 :=
  round53 (x.num <<< y.exp2 - y.num <<< x.exp2) (1 <<< (x.exp2 + y.exp2))

/-- Conversion of a `double` to an integer type: the fraction is discarded. -/
def Binary64.trunc (x : Binary64) : Nat :=
  x.num >>> x.exp2

/-! ## `MIL_ADC_FloattoASCII` -/

/-- The function `MIL_ADC_FloattoASCII(adc_value, pstring)`: the four bytes stored
at `pstring[0..3]`.  The branch `if(result_double < 0)` is never taken, since
`adc_value` is unsigned.  The truncated values fit `int8_t` and the sums fit
`char` for every 16-bit `adc_value`. -/
def MIL_ADC_FloattoASCII (adc_value : Nat) : List Nat :=
  let result_double := Binary64.ofNat adc_value
  let org_res := (result_double.mul (Binary64.ofNat 3)).div (Binary64.ofNat 4095)
  let res_int := org_res.trunc
  let res1 := (Binary64.ofNat 10).mul (org_res.sub (Binary64.ofNat res_int))
  let res_int1 := res1.trunc
  let res2 := (Binary64.ofNat 10).mul (res1.sub (Binary64.ofNat res_int1))
  let res_int2 := res2.trunc
  [res_int + 0x30, '.'.toNat, res_int1 + 0x30, res_int2 + 0x30]

/-- The four characters `d0 . d1 d2` for the decimal digits `d0 d1 d2` of `n`. -/
def decimalString (n : Nat) : List Nat :=
  [n / 100 + '0'.toNat, '.'.toNat, n / 10 % 10 + '0'.toNat, n % 10 + '0'.toNat]

/-- Whether `MIL_ADC_FloattoASCII raw` writes the digits of
`floor (raw * 300 / 4095)`, the four raw values 1638, 1911, 3276, 3822 apart. -/
def floatAsciiCheck (raw : Nat) : Bool :=
  MIL_ADC_FloattoASCII raw == decimalString (raw * 300 / 4095) ||
    raw == 1638 || raw == 1911 || raw == 3276 || raw == 3822

/-! ## `MIL_ADCPinConfig` -/

/-- Base address of GPIO port B (vendor header `inc/hw_memmap.h`). -/
def GPIO_PORTB_BASE : Nat := 0x40005000
/-- Base address of GPIO port D (vendor header `inc/hw_memmap.h`). -/
def GPIO_PORTD_BASE : Nat := 0x40007000
/-- Base address of GPIO port E (vendor header `inc/hw_memmap.h`). -/
def GPIO_PORTE_BASE : Nat := 0x40024000
/-- Pin mask of GPIO pin 0 (vendor header `driverlib/gpio.h`). -/
def GPIO_PIN_0 : Nat := 0x00000001
/-- Pin mask of GPIO pin 1 (vendor header `driverlib/gpio.h`). -/
def GPIO_PIN_1 : Nat := 0x00000002
/-- Pin mask of GPIO pin 2 (vendor header `driverlib/gpio.h`). -/
def GPIO_PIN_2 : Nat := 0x00000004
/-- Pin mask of GPIO pin 3 (vendor header `driverlib/gpio.h`). -/
def GPIO_PIN_3 : Nat := 0x00000008
/-- Pin mask of GPIO pin 4 (vendor header `driverlib/gpio.h`). -/
def GPIO_PIN_4 : Nat := 0x00000010
/-- Pin mask of GPIO pin 5 (vendor header `driverlib/gpio.h`). -/
def GPIO_PIN_5 : Nat := 0x00000020
/-- Peripheral identifier of GPIO port B (vendor header `driverlib/sysctl.h`). -/
def SYSCTL_PERIPH_GPIOB : Nat := 0xf0000801
/-- Peripheral identifier of GPIO port D (vendor header `driverlib/sysctl.h`). -/
def SYSCTL_PERIPH_GPIOD : Nat := 0xf0000803
/-- Peripheral identifier of GPIO port E (vendor header `driverlib/sysctl.h`). -/
def SYSCTL_PERIPH_GPIOE : Nat := 0xf0000804

/-- Pin mask `MIL_ADC_PIN0_bm` (AIN0, PE3). -/
def MIL_ADC_PIN0_bm : Nat := 0x01 <<< 0
/-- Pin mask `MIL_ADC_PIN1_bm` (AIN1, PE2). -/
def MIL_ADC_PIN1_bm : Nat := 0x01 <<< 1
/-- Pin mask `MIL_ADC_PIN2_bm` (AIN2, PE1). -/
def MIL_ADC_PIN2_bm : Nat := 0x01 <<< 2
/-- Pin mask `MIL_ADC_PIN3_bm` (AIN3, PE0). -/
def MIL_ADC_PIN3_bm : Nat := 0x01 <<< 3
/-- Pin mask `MIL_ADC_PIN4_bm` (AIN4, PD3). -/
def MIL_ADC_PIN4_bm : Nat := 0x01 <<< 4
/-- Pin mask `MIL_ADC_PIN5_bm` (AIN5, PD2). -/
def MIL_ADC_PIN5_bm : Nat := 0x01 <<< 5
/-- Pin mask `MIL_ADC_PIN6_bm` (AIN6, PD1). -/
def MIL_ADC_PIN6_bm : Nat := 0x01 <<< 6
/-- Pin mask `MIL_ADC_PIN7_bm` (AIN7, PD0). -/
def MIL_ADC_PIN7_bm : Nat := 0x01 <<< 7
/-- Pin mask `MIL_ADC_PIN8_bm` (AIN8, PE5). -/
def MIL_ADC_PIN8_bm : Nat := 0x01 <<< 8
/-- Pin mask `MIL_ADC_PIN9_bm` (AIN9, PE4). -/
def MIL_ADC_PIN9_bm : Nat := 0x01 <<< 9
/-- Pin mask `MIL_ADC_PIN10_bm` (AIN10, PB4). -/
def MIL_ADC_PIN10_bm : Nat := 0x01 <<< 10
/-- Pin mask `MIL_ADC_PIN11_bm` (AIN11, PB5). -/
def MIL_ADC_PIN11_bm : Nat := 0x01 <<< 11

/-- The expression `bitfield & MIL_ADC_PORTB_gc`.  The macro `MIL_ADC_PORTB_gc`
is the unparenthesised text `MIL_ADC_PIN10_bm | MIL_ADC_PIN11_bm`, and `&` binds
tighter than `|`, so the expression is `(bitfield & 0x01 << 10) | 0x01 << 11`. -/
def bitfield_and_PORTB_gc (bitfield : Nat) : Nat :=
  (bitfield &&& MIL_ADC_PIN10_bm) ||| MIL_ADC_PIN11_bm

/-- The expression `bitfield & MIL_ADC_PORTD_gc`, the macro being the
unparenthesised text `MIL_ADC_PIN4_bm | MIL_ADC_PIN5_bm | MIL_ADC_PIN6_bm |
MIL_ADC_PIN7_bm`. -/
def bitfield_and_PORTD_gc (bitfield : Nat) : Nat :=
  (((bitfield &&& MIL_ADC_PIN4_bm) ||| MIL_ADC_PIN5_bm) ||| MIL_ADC_PIN6_bm) ||| MIL_ADC_PIN7_bm

/-- The expression `bitfield & MIL_ADC_PORTE_gc`, the macro being the
unparenthesised text `MIL_ADC_PIN0_bm | MIL_ADC_PIN1_bm | MIL_ADC_PIN2_bm |
MIL_ADC_PIN3_bm | MIL_ADC_PIN8_bm | MIL_ADC_PIN9_bm`. -/
def bitfield_and_PORTE_gc (bitfield : Nat) : Nat :=
  (((((bitfield &&& MIL_ADC_PIN0_bm) ||| MIL_ADC_PIN1_bm) ||| MIL_ADC_PIN2_bm) |||
    MIL_ADC_PIN3_bm) ||| MIL_ADC_PIN8_bm) ||| MIL_ADC_PIN9_bm

/-- One statement `if(cond){ call; }` of `MIL_ADCPinConfig`: the calls it makes. -/
def callIf (cond : Nat) (call : HwCall) : List HwCall :=
  if cond ≠ 0 then [call] else []

/-- The function `MIL_ADCPinConfig(bitfield)`: the driver-library calls made, in
order. -/
def MIL_ADCPinConfig (bitfield : Nat) : List HwCall :=
  callIf (bitfield_and_PORTB_gc bitfield) (HwCall.SysCtlPeripheralEnable SYSCTL_PERIPH_GPIOB) ++
  callIf (bitfield_and_PORTD_gc bitfield) (HwCall.SysCtlPeripheralEnable SYSCTL_PERIPH_GPIOD) ++
  callIf (bitfield_and_PORTE_gc bitfield) (HwCall.SysCtlPeripheralEnable SYSCTL_PERIPH_GPIOE) ++
  callIf (bitfield &&& MIL_ADC_PIN0_bm) (HwCall.GPIOPinTypeADC GPIO_PORTE_BASE GPIO_PIN_3) ++
  callIf (bitfield &&& MIL_ADC_PIN1_bm) (HwCall.GPIOPinTypeADC GPIO_PORTE_BASE GPIO_PIN_2) ++
  callIf (bitfield &&& MIL_ADC_PIN2_bm) (HwCall.GPIOPinTypeADC GPIO_PORTE_BASE GPIO_PIN_1) ++
  callIf (bitfield &&& MIL_ADC_PIN3_bm) (HwCall.GPIOPinTypeADC GPIO_PORTE_BASE GPIO_PIN_0) ++
  callIf (bitfield &&& MIL_ADC_PIN4_bm) (HwCall.GPIOPinTypeADC GPIO_PORTD_BASE GPIO_PIN_3) ++
  callIf (bitfield &&& MIL_ADC_PIN5_bm) (HwCall.GPIOPinTypeADC GPIO_PORTD_BASE GPIO_PIN_2) ++
  callIf (bitfield &&& MIL_ADC_PIN6_bm) (HwCall.GPIOPinTypeADC GPIO_PORTD_BASE GPIO_PIN_1) ++
  callIf (bitfield &&& MIL_ADC_PIN7_bm) (HwCall.GPIOPinTypeADC GPIO_PORTD_BASE GPIO_PIN_0) ++
  callIf (bitfield &&& MIL_ADC_PIN8_bm) (HwCall.GPIOPinTypeADC GPIO_PORTE_BASE GPIO_PIN_5) ++
  callIf (bitfield &&& MIL_ADC_PIN9_bm) (HwCall.GPIOPinTypeADC GPIO_PORTE_BASE GPIO_PIN_4) ++
  callIf (bitfield &&& MIL_ADC_PIN10_bm) (HwCall.GPIOPinTypeADC GPIO_PORTB_BASE GPIO_PIN_4) ++
  callIf (bitfield &&& MIL_ADC_PIN11_bm) (HwCall.GPIOPinTypeADC GPIO_PORTB_BASE GPIO_PIN_5)

/-- The physical pin of each ADC channel, as `(port base, pin mask)`, after the
comments of `MIL_ADC.h`: AIN0..AIN11 are PE3, PE2, PE1, PE0, PD3, PD2, PD1, PD0,
PE5, PE4, PB4, PB5. -/
def adcPin : Nat → Nat × Nat
  | 0 => (GPIO_PORTE_BASE, GPIO_PIN_3)
  | 1 => (GPIO_PORTE_BASE, GPIO_PIN_2)
  | 2 => (GPIO_PORTE_BASE, GPIO_PIN_1)
  | 3 => (GPIO_PORTE_BASE, GPIO_PIN_0)
  | 4 => (GPIO_PORTD_BASE, GPIO_PIN_3)
  | 5 => (GPIO_PORTD_BASE, GPIO_PIN_2)
  | 6 => (GPIO_PORTD_BASE, GPIO_PIN_1)
  | 7 => (GPIO_PORTD_BASE, GPIO_PIN_0)
  | 8 => (GPIO_PORTE_BASE, GPIO_PIN_5)
  | 9 => (GPIO_PORTE_BASE, GPIO_PIN_4)
  | 10 => (GPIO_PORTB_BASE, GPIO_PIN_4)
  | _ => (GPIO_PORTB_BASE, GPIO_PIN_5)

/-! ## Bit-level and loop lemmas -/

theorem and_shiftLeft_eq_zero_iff (p c : Nat) :
    p &&& (0x01 <<< c) = 0 ↔ p.testBit c = false := by
  rw [Nat.one_shiftLeft]
  constructor
  · intro h
    have h1 : (p &&& 2 ^ c).testBit c = false := by rw [h]; exact Nat.zero_testBit c
    rw [Nat.testBit_and, Nat.testBit_two_pow_self] at h1
    simpa using h1
  · intro h
    apply Nat.eq_of_testBit_eq
    intro i
    rw [Nat.testBit_and, Nat.testBit_two_pow, Nat.zero_testBit]
    by_cases hi : c = i
    · subst hi; simp [h]
    · simp [hi]

theorem testBit_and_0FFF (p c : Nat) (hc : c < 12) :
    (p &&& 0x0FFF).testBit c = p.testBit c := by
  have h : (0x0FFF : Nat) = 2 ^ 12 - 1 := by norm_num
  rw [Nat.testBit_and, h, Nat.testBit_two_pow_sub_one]
  simp [hc]

theorem requested_and_0FFF (p : Nat) : requested (p &&& 0x0FFF) = requested p := by
  unfold requested
  apply List.filter_congr
  intro c hc
  exact testBit_and_0FFF p c (List.mem_range.mp hc)

theorem requested_eq_requestedFrom (p : Nat) : requested p = requestedFrom p 0 := by
  simp [requested, requestedFrom, List.range_eq_range']

theorem countLoop_eq (n : Nat) : ∀ t s : Nat, t < 2 ^ n →
    countLoop t s = s + ((List.range n).filter (fun c => t.testBit c)).length := by
  induction n with
  | zero =>
    intro t s ht
    have : t = 0 := by simpa using ht
    subst this
    unfold countLoop
    simp
  | succ n ih =>
    intro t s ht
    unfold countLoop
    by_cases h0 : t = 0
    · subst h0
      simp
    · have hlt : t >>> 1 < 2 ^ n := by
        rw [Nat.shiftRight_eq_div_pow]
        have : 2 ^ (n + 1) = 2 * 2 ^ n := by ring
        omega
      rw [dif_pos h0, ih _ _ hlt, List.range_succ_eq_map, List.filter_cons, List.filter_map]
      have hcomp : ((fun c => t.testBit c) ∘ Nat.succ) = fun c => (t >>> 1).testBit c := by
        funext c
        simp [Nat.testBit_succ, Nat.shiftRight_eq_div_pow]
      rw [hcomp, Nat.and_one_is_mod, Nat.testBit_zero]
      by_cases hb : t % 2 = 1
      · simp [hb]; omega
      · have : t % 2 = 0 := by omega
        simp [this]

theorem countLoop_masked (p : Nat) : countLoop (p &&& 0x0FFF) 0 = (requested p).length := by
  have hlt : p &&& 0x0FFF < 2 ^ 12 := Nat.and_lt_two_pow p (by norm_num)
  rw [countLoop_eq 12 _ _ hlt, Nat.zero_add]
  exact congrArg List.length (requested_and_0FFF p)

theorem requestedFrom_of_ge (p c : Nat) (hc : 12 ≤ c) : requestedFrom p c = [] := by
  have : 12 - c = 0 := by omega
  simp [requestedFrom, this]

theorem requestedFrom_of_set (p c : Nat) (hc : c < 12) (hb : p.testBit c = true) :
    requestedFrom p c = c :: requestedFrom p (c + 1) := by
  have : 12 - c = (12 - (c + 1)) + 1 := by omega
  simp [requestedFrom, this, List.range'_succ, hb]

theorem requestedFrom_of_clear (p c : Nat) (hb : p.testBit c = false) :
    requestedFrom p c = requestedFrom p (c + 1) := by
  by_cases hc : c < 12
  · have : 12 - c = (12 - (c + 1)) + 1 := by omega
    simp [requestedFrom, this, List.range'_succ, hb]
  · rw [requestedFrom_of_ge p c (by omega), requestedFrom_of_ge p (c + 1) (by omega)]

theorem scanLoop_spec (p : Nat) : ∀ d c : Nat, 12 - c ≤ d → requestedFrom p (c + 1) ≠ [] →
    ∃ c', scanLoop p c = some c' ∧ requestedFrom p (c + 1) = c' :: requestedFrom p (c' + 1) := by
  intro d
  induction d with
  | zero =>
    intro c hd hne
    exact absurd (requestedFrom_of_ge p (c + 1) (by omega)) hne
  | succ d ih =>
    intro c hd hne
    unfold scanLoop
    by_cases hgt : c + 1 > 11
    · exact absurd (requestedFrom_of_ge p (c + 1) (by omega)) hne
    · rw [dif_neg hgt]
      by_cases hz : p &&& (0x01 <<< (c + 1)) = 0
      · rw [if_pos hz]
        have hb := (and_shiftLeft_eq_zero_iff p (c + 1)).mp hz
        rw [requestedFrom_of_clear p (c + 1) hb] at hne ⊢
        exact ih (c + 1) (by omega) hne
      · rw [if_neg hz]
        have hb : p.testBit (c + 1) = true := by
          cases h : p.testBit (c + 1) with
          | true => rfl
          | false => exact absurd ((and_shiftLeft_eq_zero_iff p (c + 1)).mpr h) hz
        exact ⟨c + 1, rfl, requestedFrom_of_set p (c + 1) (by omega) hb⟩

theorem nextChannel_spec (p c : Nat) (hne : requestedFrom p c ≠ []) :
    ∃ c', (if p &&& (0x01 <<< c) = 0 then scanLoop p c else some c) = some c' ∧
      requestedFrom p c = c' :: requestedFrom p (c' + 1) := by
  have hc : c < 12 := by
    by_contra h
    exact hne (requestedFrom_of_ge p c (by omega))
  by_cases hz : p &&& (0x01 <<< c) = 0
  · rw [if_pos hz]
    have hb := (and_shiftLeft_eq_zero_iff p c).mp hz
    rw [requestedFrom_of_clear p c hb] at hne ⊢
    exact scanLoop_spec p 12 c (by omega) hne
  · rw [if_neg hz]
    have hb : p.testBit c = true := by
      cases h : p.testBit c with
      | true => rfl
      | false => exact absurd ((and_shiftLeft_eq_zero_iff p c).mpr h) hz
    exact ⟨c, rfl, requestedFrom_of_set p c hc hb⟩

theorem stepLoop_eq (base seq_num p n : Nat) : ∀ k i c : Nat, n - i = k →
    k ≤ (requestedFrom p c).length →
    stepLoop base seq_num p n i c =
      (none, stepCalls base seq_num n i ((requestedFrom p c).take k)) := by
  intro k
  induction k with
  | zero =>
    intro i c hk _
    unfold stepLoop
    rw [dif_neg (by omega)]
    simp [stepCalls]
  | succ k ih =>
    intro i c hk hlen
    have hne : requestedFrom p c ≠ [] := by
      intro h
      rw [h] at hlen
      simp at hlen
    obtain ⟨c', hnext, hreq⟩ := nextChannel_spec p c hne
    unfold stepLoop
    rw [dif_pos (by omega), hnext]
    have hlen' : k ≤ (requestedFrom p (c' + 1)).length := by
      rw [hreq] at hlen
      simpa using hlen
    simp only []
    rw [ih (i + 1) (c' + 1) (by omega) hlen', hreq, List.take_succ_cons]
    simp [stepCalls, stepConfig]

theorem seqInitBody_eq (base seq_num p : Nat) (trig : mil_trig_t) :
    seqInitBody base seq_num p trig =
      (MIL_ADC_OK,
        HwCall.ADCSequenceConfigure base seq_num (local_trig trig) seq_num ::
          stepCalls base seq_num (min (requested p).length (step_max seq_num)) 0
            ((requested p).take (min (requested p).length (step_max seq_num))) ++
          [HwCall.ADCSequenceEnable base seq_num, HwCall.ADCIntClear base seq_num]) := by
  have hact : (if countLoop (p &&& 0x0FFF) 0 > step_max seq_num then step_max seq_num
      else countLoop (p &&& 0x0FFF) 0) = min (requested p).length (step_max seq_num) := by
    rw [countLoop_masked]
    split <;> omega
  have hreq : requestedFrom (p &&& 0x0FFF) 0 = requested p := by
    rw [← requested_eq_requestedFrom, requested_and_0FFF]
  have hloop := stepLoop_eq base seq_num (p &&& 0x0FFF)
    (min (requested p).length (step_max seq_num))
    (min (requested p).length (step_max seq_num)) 0 0 (by omega)
    (by rw [hreq]; omega)
  rw [hreq] at hloop
  unfold seqInitBody
  simp only [hact, hloop]

theorem MIL_ADCSeqInit_of_invalid (base seq_num p : Nat) (trig : mil_trig_t)
    (h0 : base ≠ ADC0_BASE) (h1 : base ≠ ADC1_BASE) :
    MIL_ADCSeqInit base seq_num p trig = (MIL_ADC_NOK, []) := by
  unfold MIL_ADCSeqInit
  rw [if_neg h0, if_neg h1]

theorem valid_of_ok (base seq_num p : Nat) (trig : mil_trig_t)
    (h : (MIL_ADCSeqInit base seq_num p trig).1 = MIL_ADC_OK) :
    base = ADC0_BASE ∨ base = ADC1_BASE := by
  by_cases h0 : base = ADC0_BASE
  · exact Or.inl h0
  · by_cases h1 : base = ADC1_BASE
    · exact Or.inr h1
    · rw [MIL_ADCSeqInit_of_invalid base seq_num p trig h0 h1] at h
      exact absurd h (by decide)

theorem ok_of_valid (base seq_num p : Nat) (trig : mil_trig_t)
    (h : base = ADC0_BASE ∨ base = ADC1_BASE) :
    (MIL_ADCSeqInit base seq_num p trig).1 = MIL_ADC_OK := by
  unfold MIL_ADCSeqInit
  rcases h with h | h
  · rw [if_pos h]; simp only [seqInitBody_eq]
  · have h0 : base ≠ ADC0_BASE := by rw [h]; decide
    rw [if_neg h0, if_pos h]; simp only [seqInitBody_eq]

theorem programmedSteps_append (l₁ l₂ : List HwCall) :
    programmedSteps (l₁ ++ l₂) = programmedSteps l₁ ++ programmedSteps l₂ := by
  induction l₁ with
  | nil => rfl
  | cons c cs ih => cases c <;> simp [programmedSteps, ih]

theorem programmedSteps_stepCalls (base seq_num n : Nat) (chs : List Nat) :
    ∀ i, programmedSteps (stepCalls base seq_num n i chs) = stepPlan n i chs := by
  induction chs with
  | nil => intro i; rfl
  | cons ch chs ih => intro i; simp [stepCalls, stepPlan, programmedSteps, ih]

theorem programmedSteps_of_valid (base seq_num p : Nat) (trig : mil_trig_t)
    (h : base = ADC0_BASE ∨ base = ADC1_BASE) :
    programmedSteps (MIL_ADCSeqInit base seq_num p trig).2 =
      stepPlan (min (requested p).length (step_max seq_num)) 0
        ((requested p).take (min (requested p).length (step_max seq_num))) := by
  unfold MIL_ADCSeqInit
  rcases h with h | h
  · rw [if_pos h]
    simp [seqInitBody_eq, programmedSteps, programmedSteps_append, programmedSteps_stepCalls]
  · have h0 : base ≠ ADC0_BASE := by rw [h]; decide
    rw [if_neg h0, if_pos h]
    simp [seqInitBody_eq, programmedSteps, programmedSteps_append, programmedSteps_stepCalls]

theorem stepPlan_length (n : Nat) (chs : List Nat) :
    ∀ i, (stepPlan n i chs).length = chs.length := by
  induction chs with
  | nil => intro i; rfl
  | cons ch chs ih => intro i; simp [stepPlan, ih]

theorem stepPlan_map_fst (n : Nat) (chs : List Nat) :
    ∀ i, (stepPlan n i chs).map Prod.fst = List.range' i chs.length := by
  induction chs with
  | nil => intro i; rfl
  | cons ch chs ih => intro i; simp [stepPlan, ih, List.range'_succ]

theorem stepConfig_and_0F (n i ch : Nat) (hch : ch < 12) : stepConfig n i ch &&& 0x0F = ch := by
  unfold stepConfig
  split
  · interval_cases ch <;> decide
  · interval_cases ch <;> decide

theorem stepPlan_channels (n : Nat) (chs : List Nat) (hch : ∀ ch ∈ chs, ch < 12) :
    ∀ i, (stepPlan n i chs).map (fun s => s.2 &&& 0x0F) = chs := by
  induction chs with
  | nil => intro i; rfl
  | cons ch chs ih =>
    intro i
    have h1 : ch < 12 := hch ch (List.mem_cons_self _ _)
    have h2 : ∀ c ∈ chs, c < 12 := fun c hc => hch c (List.mem_cons_of_mem _ hc)
    simp [stepPlan, ih h2, stepConfig_and_0F n i ch h1]

theorem requested_mem (p c : Nat) : c ∈ requested p ↔ c < 12 ∧ p.testBit c = true := by
  simp [requested]

theorem requested_sorted (p : Nat) : List.Pairwise (· < ·) (requested p) :=
  List.Pairwise.filter _ (List.pairwise_lt_range 12)

theorem programmedChannels_of_valid (base seq_num p : Nat) (trig : mil_trig_t)
    (h : base = ADC0_BASE ∨ base = ADC1_BASE) :
    programmedChannels (MIL_ADCSeqInit base seq_num p trig).2 =
      (requested p).take (min (requested p).length (step_max seq_num)) := by
  unfold programmedChannels
  rw [programmedSteps_of_valid base seq_num p trig h]
  apply stepPlan_channels
  intro ch hch
  exact ((requested_mem p ch).mp (List.mem_of_mem_take hch)).1

theorem step_max_pos (seq_num : Nat) : 1 ≤ step_max seq_num := by
  unfold step_max
  split_ifs <;> omega

theorem MIL_ADCSeqInit_ADC0 (seq_num p : Nat) (trig : mil_trig_t) :
    MIL_ADCSeqInit ADC0_BASE seq_num p trig =
      (MIL_ADC_OK,
        HwCall.SysCtlPeripheralEnable SYSCTL_PERIPH_ADC0 ::
        HwCall.SysCtlPeripheralReset SYSCTL_PERIPH_ADC0 ::
        HwCall.ADCSequenceConfigure ADC0_BASE seq_num (local_trig trig) seq_num ::
          stepCalls ADC0_BASE seq_num (min (requested p).length (step_max seq_num)) 0
            ((requested p).take (min (requested p).length (step_max seq_num))) ++
          [HwCall.ADCSequenceEnable ADC0_BASE seq_num, HwCall.ADCIntClear ADC0_BASE seq_num]) := by
  unfold MIL_ADCSeqInit
  rw [if_pos rfl]
  simp only [seqInitBody_eq, List.cons_append]

theorem requestedFrom_of_all_clear (p c : Nat) (h : ∀ c', c' < c → p.testBit c' = false) :
    ∀ j, j ≤ c → requestedFrom p 0 = requestedFrom p j := by
  intro j
  induction j with
  | zero => intro _; rfl
  | succ j ih =>
    intro hj
    rw [ih (by omega), requestedFrom_of_clear p j (h j (by omega))]

theorem requested_of_least (p c : Nat) (hc : c < 12) (hb : p.testBit c = true)
    (h : ∀ c', c' < c → p.testBit c' = false) :
    requested p = c :: requestedFrom p (c + 1) := by
  rw [requested_eq_requestedFrom, requestedFrom_of_all_clear p c h c (Nat.le_refl c),
    requestedFrom_of_set p c hc hb]

theorem requested_ne_nil (p : Nat) (hne : ∃ c, c < 12 ∧ p.testBit c = true) :
    1 ≤ (requested p).length := by
  obtain ⟨c, hc, hb⟩ := hne
  have hmem : c ∈ requested p := (requested_mem p c).mpr ⟨hc, hb⟩
  exact List.length_pos_of_mem hmem

theorem requested_eq_nil (p : Nat) (h : ∀ c, c < 12 → p.testBit c = false) :
    requested p = [] := by
  apply List.eq_nil_iff_forall_not_mem.mpr
  intro c hc
  have := (requested_mem p c).mp hc
  rw [h c this.1] at this
  exact absurd this.2 (by decide)

theorem terminalFlag_stepConfig (n i ch : Nat) (hch : ch < 12) :
    terminalFlag (stepConfig n i ch) = decide (i + 1 = n) := by
  unfold stepConfig
  by_cases h : i + 1 = n
  · rw [if_pos h]
    simp only [h, decide_True]
    interval_cases ch <;> decide
  · rw [if_neg h]
    simp only [h, decide_False]
    interval_cases ch <;> decide

theorem stepPlan_getElem? (n : Nat) (chs : List Nat) :
    ∀ i k, (stepPlan n i chs)[k]? = (chs[k]?).map (fun ch => (i + k, stepConfig n (i + k) ch)) := by
  induction chs with
  | nil => intro i k; simp [stepPlan]
  | cons ch chs ih =>
    intro i k
    cases k with
    | zero => simp [stepPlan]
    | succ k =>
      simp only [stepPlan, List.getElem?_cons_succ, ih]
      have : i + 1 + k = i + (k + 1) := by omega
      rw [this]

theorem stepPlan_terminal_count (n : Nat) (chs : List Nat) (hch : ∀ ch ∈ chs, ch < 12) :
    ∀ i, i + chs.length = n → chs ≠ [] →
      ((stepPlan n i chs).filter (fun s => terminalFlag s.2)).length = 1 := by
  induction chs with
  | nil => intro i _ h; exact absurd rfl h
  | cons ch chs ih =>
    intro i hlen _
    have h1 : ch < 12 := hch ch (List.mem_cons_self _ _)
    have h2 : ∀ c ∈ chs, c < 12 := fun c hc => hch c (List.mem_cons_of_mem _ hc)
    simp only [List.length_cons] at hlen
    by_cases hnil : chs = []
    · subst hnil
      have hi : i + 1 = n := by simpa using hlen
      simp [stepPlan, terminalFlag_stepConfig n i ch h1, hi]
    · have hpos : 1 ≤ chs.length := List.length_pos.mpr hnil
      have hi : i + 1 ≠ n := by omega
      have := ih h2 (i + 1) (by omega) hnil
      simp [stepPlan, terminalFlag_stepConfig n i ch h1, hi, this]

/-! ## Step allocation by `MIL_ADCSeqInit` -/

/-- C1: for every pin bitfield with at least one of the bits 0..11 set, a
successful `MIL_ADCSeqInit` programs exactly `min` (number of set bits among
0..11) (step limit of the sequence number) steps; the limit is at least 1, so at
least one step is programmed. -/
theorem seqInit_step_count (base seq_num pin_bitfield : Nat) (trig : mil_trig_t)
    (hne : ∃ c, c < 12 ∧ pin_bitfield.testBit c = true)
    (hok : (MIL_ADCSeqInit base seq_num pin_bitfield trig).1 = MIL_ADC_OK) :
    1 ≤ step_max seq_num ∧
    (programmedSteps (MIL_ADCSeqInit base seq_num pin_bitfield trig).2).length =
      min ((List.range 12).filter (fun c => pin_bitfield.testBit c)).length (step_max seq_num) ∧
    1 ≤ (programmedSteps (MIL_ADCSeqInit base seq_num pin_bitfield trig).2).length := by
  have hv := valid_of_ok base seq_num pin_bitfield trig hok
  have hpos := step_max_pos seq_num
  have hreq := requested_ne_nil pin_bitfield hne
  have hlen : (programmedSteps (MIL_ADCSeqInit base seq_num pin_bitfield trig).2).length =
      min (requested pin_bitfield).length (step_max seq_num) := by
    rw [programmedSteps_of_valid base seq_num pin_bitfield trig hv, stepPlan_length,
      List.length_take]
    omega
  refine ⟨hpos, hlen, ?_⟩
  rw [hlen]
  omega

/-- Instance of C1: ADC0, sequence 1, channels {1, 4, 9}. -/
theorem seqInit_step_count_witness :
    (∃ c, c < 12 ∧ (0x212 : Nat).testBit c = true) ∧
    (MIL_ADCSeqInit ADC0_BASE 1 0x212 MIL_ADC_SoftTrig).1 = MIL_ADC_OK ∧
    (1 ≤ step_max 1 ∧
     (programmedSteps (MIL_ADCSeqInit ADC0_BASE 1 0x212 MIL_ADC_SoftTrig).2).length =
       min ((List.range 12).filter (fun c => (0x212 : Nat).testBit c)).length (step_max 1) ∧
     1 ≤ (programmedSteps (MIL_ADCSeqInit ADC0_BASE 1 0x212 MIL_ADC_SoftTrig).2).length) :=
  ⟨⟨1, by decide, by decide⟩,
   ok_of_valid ADC0_BASE 1 0x212 MIL_ADC_SoftTrig (Or.inl rfl),
   seqInit_step_count ADC0_BASE 1 0x212 MIL_ADC_SoftTrig ⟨1, by decide, by decide⟩
     (ok_of_valid ADC0_BASE 1 0x212 MIL_ADC_SoftTrig (Or.inl rfl))⟩

/-- C2: for every successful `MIL_ADCSeqInit` the programmed steps are numbered
0, 1, 2, ..., their channel ids are strictly increasing with the step index,
hence pairwise distinct, and the lowest-numbered requested channel (when there
is one) is the channel of step 0. -/
theorem seqInit_channels_ascending (base seq_num pin_bitfield : Nat) (trig : mil_trig_t)
    (hok : (MIL_ADCSeqInit base seq_num pin_bitfield trig).1 = MIL_ADC_OK) :
    (programmedSteps (MIL_ADCSeqInit base seq_num pin_bitfield trig).2).map Prod.fst =
      List.range (programmedSteps (MIL_ADCSeqInit base seq_num pin_bitfield trig).2).length ∧
    List.Pairwise (· < ·)
      (programmedChannels (MIL_ADCSeqInit base seq_num pin_bitfield trig).2) ∧
    (programmedChannels (MIL_ADCSeqInit base seq_num pin_bitfield trig).2).Nodup ∧
    ∀ c, c < 12 → pin_bitfield.testBit c = true →
      (∀ c', c' < c → pin_bitfield.testBit c' = false) →
      (programmedChannels (MIL_ADCSeqInit base seq_num pin_bitfield trig).2).head? = some c := by
  have hv := valid_of_ok base seq_num pin_bitfield trig hok
  have hsorted : List.Pairwise (· < ·)
      (programmedChannels (MIL_ADCSeqInit base seq_num pin_bitfield trig).2) := by
    rw [programmedChannels_of_valid base seq_num pin_bitfield trig hv]
    exact List.Pairwise.sublist (List.take_sublist _ _) (requested_sorted pin_bitfield)
  refine ⟨?_, hsorted, ?_, ?_⟩
  · rw [programmedSteps_of_valid base seq_num pin_bitfield trig hv, stepPlan_map_fst,
      stepPlan_length, List.range_eq_range']
  · exact List.Pairwise.imp (fun h => Nat.ne_of_lt h) hsorted
  · intro c hc hb hleast
    have hpos := step_max_pos seq_num
    have hreq := requested_of_least pin_bitfield c hc hb hleast
    rw [programmedChannels_of_valid base seq_num pin_bitfield trig hv, hreq]
    have hmin : min (c :: requestedFrom pin_bitfield (c + 1)).length (step_max seq_num) =
        (min (c :: requestedFrom pin_bitfield (c + 1)).length (step_max seq_num) - 1) + 1 := by
      simp only [List.length_cons]
      omega
    rw [hmin, List.take_succ_cons]
    rfl

/-- Instance of C2: ADC0, sequence 1, channels {1, 4, 9}. -/
theorem seqInit_channels_ascending_witness :
    (MIL_ADCSeqInit ADC0_BASE 1 0x212 MIL_ADC_SoftTrig).1 = MIL_ADC_OK ∧
    ((programmedSteps (MIL_ADCSeqInit ADC0_BASE 1 0x212 MIL_ADC_SoftTrig).2).map Prod.fst =
      List.range (programmedSteps (MIL_ADCSeqInit ADC0_BASE 1 0x212 MIL_ADC_SoftTrig).2).length ∧
    List.Pairwise (· < ·)
      (programmedChannels (MIL_ADCSeqInit ADC0_BASE 1 0x212 MIL_ADC_SoftTrig).2) ∧
    (programmedChannels (MIL_ADCSeqInit ADC0_BASE 1 0x212 MIL_ADC_SoftTrig).2).Nodup ∧
    ∀ c, c < 12 → (0x212 : Nat).testBit c = true →
      (∀ c', c' < c → (0x212 : Nat).testBit c' = false) →
      (programmedChannels (MIL_ADCSeqInit ADC0_BASE 1 0x212 MIL_ADC_SoftTrig).2).head? = some c) :=
  ⟨ok_of_valid ADC0_BASE 1 0x212 MIL_ADC_SoftTrig (Or.inl rfl),
   seqInit_channels_ascending ADC0_BASE 1 0x212 MIL_ADC_SoftTrig
     (ok_of_valid ADC0_BASE 1 0x212 MIL_ADC_SoftTrig (Or.inl rfl))⟩

/-- C3: the channels a successful `MIL_ADCSeqInit` programs are exactly the
`min count capacity` lowest-numbered requested channels: every programmed
channel is a requested one, and a requested channel is left out only when the
count exceeds the capacity, in which case it is higher than every programmed
channel. -/
theorem seqInit_lowest_channels (base seq_num pin_bitfield : Nat) (trig : mil_trig_t)
    (hok : (MIL_ADCSeqInit base seq_num pin_bitfield trig).1 = MIL_ADC_OK) :
    programmedChannels (MIL_ADCSeqInit base seq_num pin_bitfield trig).2 =
      ((List.range 12).filter (fun c => pin_bitfield.testBit c)).take
        (min ((List.range 12).filter (fun c => pin_bitfield.testBit c)).length
          (step_max seq_num)) ∧
    (∀ ch, ch ∈ programmedChannels (MIL_ADCSeqInit base seq_num pin_bitfield trig).2 →
      ch < 12 ∧ pin_bitfield.testBit ch = true) ∧
    (∀ c, c < 12 → pin_bitfield.testBit c = true →
      c ∉ programmedChannels (MIL_ADCSeqInit base seq_num pin_bitfield trig).2 →
      step_max seq_num < ((List.range 12).filter (fun c => pin_bitfield.testBit c)).length ∧
      ∀ ch, ch ∈ programmedChannels (MIL_ADCSeqInit base seq_num pin_bitfield trig).2 →
        ch < c) := by
  have hv := valid_of_ok base seq_num pin_bitfield trig hok
  have hch := programmedChannels_of_valid base seq_num pin_bitfield trig hv
  rw [hch]
  refine ⟨rfl, ?_, ?_⟩
  · intro ch hmem
    exact (requested_mem pin_bitfield ch).mp (List.mem_of_mem_take hmem)
  · intro c hc hb hnot
    have hmem : c ∈ requested pin_bitfield := (requested_mem pin_bitfield c).mpr ⟨hc, hb⟩
    have hsplit := List.take_append_drop
      (min (requested pin_bitfield).length (step_max seq_num)) (requested pin_bitfield)
    have hdrop : c ∈ (requested pin_bitfield).drop
        (min (requested pin_bitfield).length (step_max seq_num)) := by
      rw [← hsplit] at hmem
      rcases List.mem_append.mp hmem with h | h
      · exact absurd h hnot
      · exact h
    constructor
    · by_contra hle
      have hmin : min (requested pin_bitfield).length (step_max seq_num) =
          (requested pin_bitfield).length := by
        have : ((List.range 12).filter (fun c => pin_bitfield.testBit c)).length =
            (requested pin_bitfield).length := rfl
        omega
      rw [hmin, List.drop_length] at hdrop
      exact absurd hdrop (List.not_mem_nil c)
    · intro ch hmemch
      have hs := requested_sorted pin_bitfield
      rw [← hsplit, List.pairwise_append] at hs
      exact hs.2.2 ch hmemch c hdrop

/-- Instance of C3: ADC0, sequence 9 (capacity 1), channels {2, 5, 11}. -/
theorem seqInit_lowest_channels_witness :
    (MIL_ADCSeqInit ADC0_BASE 9 0x824 MIL_ADC_SoftTrig).1 = MIL_ADC_OK ∧
    (programmedChannels (MIL_ADCSeqInit ADC0_BASE 9 0x824 MIL_ADC_SoftTrig).2 =
      ((List.range 12).filter (fun c => (0x824 : Nat).testBit c)).take
        (min ((List.range 12).filter (fun c => (0x824 : Nat).testBit c)).length
          (step_max 9)) ∧
    (∀ ch, ch ∈ programmedChannels (MIL_ADCSeqInit ADC0_BASE 9 0x824 MIL_ADC_SoftTrig).2 →
      ch < 12 ∧ (0x824 : Nat).testBit ch = true) ∧
    (∀ c, c < 12 → (0x824 : Nat).testBit c = true →
      c ∉ programmedChannels (MIL_ADCSeqInit ADC0_BASE 9 0x824 MIL_ADC_SoftTrig).2 →
      step_max 9 < ((List.range 12).filter (fun c => (0x824 : Nat).testBit c)).length ∧
      ∀ ch, ch ∈ programmedChannels (MIL_ADCSeqInit ADC0_BASE 9 0x824 MIL_ADC_SoftTrig).2 →
        ch < c)) :=
  ⟨ok_of_valid ADC0_BASE 9 0x824 MIL_ADC_SoftTrig (Or.inl rfl),
   seqInit_lowest_channels ADC0_BASE 9 0x824 MIL_ADC_SoftTrig
     (ok_of_valid ADC0_BASE 9 0x824 MIL_ADC_SoftTrig (Or.inl rfl))⟩

/-- C4, as stated, fails on the empty channel set: `MIL_ADCSeqInit` succeeds
there and no programmed step carries the terminal flag. -/
theorem seqInit_empty_no_terminal_step :
    (MIL_ADCSeqInit ADC0_BASE MIL_ADC_SEQ0 0 MIL_ADC_SoftTrig).1 = MIL_ADC_OK ∧
    ((programmedSteps (MIL_ADCSeqInit ADC0_BASE MIL_ADC_SEQ0 0 MIL_ADC_SoftTrig).2).filter
      (fun s => terminalFlag s.2)).length = 0 ∧
    ((programmedSteps (MIL_ADCSeqInit ADC0_BASE MIL_ADC_SEQ0 0 MIL_ADC_SoftTrig).2).filter
      (fun s => terminalFlag s.2)).length ≠ 1 := by
  rw [MIL_ADCSeqInit_ADC0]
  decide

/-- C4 (amended): for every successful `MIL_ADCSeqInit` with at least one of
the bits 0..11 set, exactly one programmed step carries
`ADC_CTL_END | ADC_CTL_IE`; it is the step with the highest index, and every
other step is programmed with the bare channel number. -/
theorem seqInit_terminal_step (base seq_num pin_bitfield : Nat) (trig : mil_trig_t)
    (hne : ∃ c, c < 12 ∧ pin_bitfield.testBit c = true)
    (hok : (MIL_ADCSeqInit base seq_num pin_bitfield trig).1 = MIL_ADC_OK) :
    ((programmedSteps (MIL_ADCSeqInit base seq_num pin_bitfield trig).2).filter
      (fun s => terminalFlag s.2)).length = 1 ∧
    ∀ k i cfg,
      (programmedSteps (MIL_ADCSeqInit base seq_num pin_bitfield trig).2)[k]? = some (i, cfg) →
      ∃ ch, ((List.range 12).filter (fun c => pin_bitfield.testBit c))[k]? = some ch ∧ i = k ∧
        (k + 1 = (programmedSteps (MIL_ADCSeqInit base seq_num pin_bitfield trig).2).length →
          cfg = ch ||| (ADC_CTL_END ||| ADC_CTL_IE) ∧ terminalFlag cfg = true) ∧
        (k + 1 ≠ (programmedSteps (MIL_ADCSeqInit base seq_num pin_bitfield trig).2).length →
          cfg = ch ∧ terminalFlag cfg = false) := by
  have hv := valid_of_ok base seq_num pin_bitfield trig hok
  have hpos := step_max_pos seq_num
  have hreq := requested_ne_nil pin_bitfield hne
  have hsteps := programmedSteps_of_valid base seq_num pin_bitfield trig hv
  have hlt12 : ∀ ch ∈ (requested pin_bitfield).take
      (min (requested pin_bitfield).length (step_max seq_num)), ch < 12 :=
    fun ch hch => ((requested_mem pin_bitfield ch).mp (List.mem_of_mem_take hch)).1
  have htl : ((requested pin_bitfield).take
      (min (requested pin_bitfield).length (step_max seq_num))).length =
      min (requested pin_bitfield).length (step_max seq_num) := by
    rw [List.length_take]
    omega
  rw [hsteps]
  constructor
  · apply stepPlan_terminal_count _ _ hlt12 0
    · rw [htl]; omega
    · intro hnil
      rw [hnil] at htl
      simp only [List.length_nil] at htl
      omega
  · intro k i cfg hget
    rw [stepPlan_getElem?] at hget
    cases hch : ((requested pin_bitfield).take
        (min (requested pin_bitfield).length (step_max seq_num)))[k]? with
    | none => rw [hch] at hget; exact absurd hget (by simp)
    | some ch =>
      rw [hch] at hget
      simp only [Option.map_some', Option.some.injEq, Prod.mk.injEq, Nat.zero_add] at hget
      obtain ⟨hi, hcfg⟩ := hget
      have hmem : ch ∈ (requested pin_bitfield).take
          (min (requested pin_bitfield).length (step_max seq_num)) :=
        List.getElem?_mem hch
      have hch12 := hlt12 ch hmem
      have hflag := terminalFlag_stepConfig
        (min (requested pin_bitfield).length (step_max seq_num)) k ch hch12
      have hreqk : (requested pin_bitfield)[k]? = some ch := by
        rw [List.getElem?_take] at hch
        split at hch
        · exact hch
        · exact absurd hch (by simp)
      refine ⟨ch, hreqk, hi.symm, ?_, ?_⟩
      · intro hlast
        rw [stepPlan_length, htl] at hlast
        rw [← hcfg]
        refine ⟨?_, ?_⟩
        · unfold stepConfig; rw [if_pos hlast]
        · rw [hflag]; simp [hlast]
      · intro hlast
        rw [stepPlan_length, htl] at hlast
        rw [← hcfg]
        refine ⟨?_, ?_⟩
        · unfold stepConfig; rw [if_neg hlast]
        · rw [hflag]; simp [hlast]

/-- Instance of C4 (amended): ADC0, sequence 1, channels {1, 4, 9}. -/
theorem seqInit_terminal_step_witness :
    (∃ c, c < 12 ∧ (0x212 : Nat).testBit c = true) ∧
    (MIL_ADCSeqInit ADC0_BASE 1 0x212 MIL_ADC_SoftTrig).1 = MIL_ADC_OK ∧
    (((programmedSteps (MIL_ADCSeqInit ADC0_BASE 1 0x212 MIL_ADC_SoftTrig).2).filter
      (fun s => terminalFlag s.2)).length = 1 ∧
    ∀ k i cfg,
      (programmedSteps (MIL_ADCSeqInit ADC0_BASE 1 0x212 MIL_ADC_SoftTrig).2)[k]? = some (i, cfg) →
      ∃ ch, ((List.range 12).filter (fun c => (0x212 : Nat).testBit c))[k]? = some ch ∧ i = k ∧
        (k + 1 = (programmedSteps (MIL_ADCSeqInit ADC0_BASE 1 0x212 MIL_ADC_SoftTrig).2).length →
          cfg = ch ||| (ADC_CTL_END ||| ADC_CTL_IE) ∧ terminalFlag cfg = true) ∧
        (k + 1 ≠ (programmedSteps (MIL_ADCSeqInit ADC0_BASE 1 0x212 MIL_ADC_SoftTrig).2).length →
          cfg = ch ∧ terminalFlag cfg = false)) :=
  ⟨⟨1, by decide, by decide⟩,
   ok_of_valid ADC0_BASE 1 0x212 MIL_ADC_SoftTrig (Or.inl rfl),
   seqInit_terminal_step ADC0_BASE 1 0x212 MIL_ADC_SoftTrig ⟨1, by decide, by decide⟩
     (ok_of_valid ADC0_BASE 1 0x212 MIL_ADC_SoftTrig (Or.inl rfl))⟩

/-- C5, as stated, fails: with the empty channel set `MIL_ADCSeqInit` does not
return an error but `MIL_ADC_OK`, and it enables the sequencer. -/
theorem seqInit_empty_returns_ok :
    MIL_ADCSeqInit ADC0_BASE MIL_ADC_SEQ0 0 MIL_ADC_SoftTrig =
      (MIL_ADC_OK,
        [HwCall.SysCtlPeripheralEnable SYSCTL_PERIPH_ADC0,
         HwCall.SysCtlPeripheralReset SYSCTL_PERIPH_ADC0,
         HwCall.ADCSequenceConfigure ADC0_BASE MIL_ADC_SEQ0 ADC_TRIGGER_PROCESSOR MIL_ADC_SEQ0,
         HwCall.ADCSequenceEnable ADC0_BASE MIL_ADC_SEQ0,
         HwCall.ADCIntClear ADC0_BASE MIL_ADC_SEQ0]) ∧
    (MIL_ADCSeqInit ADC0_BASE MIL_ADC_SEQ0 0 MIL_ADC_SoftTrig).1 ≠ MIL_ADC_NOK ∧
    HwCall.ADCSequenceEnable ADC0_BASE MIL_ADC_SEQ0 ∈
      (MIL_ADCSeqInit ADC0_BASE MIL_ADC_SEQ0 0 MIL_ADC_SoftTrig).2 := by
  rw [MIL_ADCSeqInit_ADC0]
  decide

/-- C5 (amended): for every sequence number and trigger, with a valid ADC base
and a pin bitfield with none of the bits 0..11 set, `MIL_ADCSeqInit` programs no
step, returns `MIL_ADC_OK`, and configures and enables the sequencer. -/
theorem seqInit_empty_request (base seq_num pin_bitfield : Nat) (trig : mil_trig_t)
    (hv : base = ADC0_BASE ∨ base = ADC1_BASE)
    (hempty : ∀ c, c < 12 → pin_bitfield.testBit c = false) :
    (MIL_ADCSeqInit base seq_num pin_bitfield trig).1 = MIL_ADC_OK ∧
    programmedSteps (MIL_ADCSeqInit base seq_num pin_bitfield trig).2 = [] ∧
    HwCall.ADCSequenceConfigure base seq_num (local_trig trig) seq_num ∈
      (MIL_ADCSeqInit base seq_num pin_bitfield trig).2 ∧
    HwCall.ADCSequenceEnable base seq_num ∈ (MIL_ADCSeqInit base seq_num pin_bitfield trig).2 := by
  have hnil := requested_eq_nil pin_bitfield hempty
  refine ⟨ok_of_valid base seq_num pin_bitfield trig hv, ?_, ?_, ?_⟩
  · rw [programmedSteps_of_valid base seq_num pin_bitfield trig hv, hnil]
    simp [stepPlan]
  · unfold MIL_ADCSeqInit
    rcases hv with h | h
    · rw [if_pos h]; simp [seqInitBody_eq]
    · have h0 : base ≠ ADC0_BASE := by rw [h]; decide
      rw [if_neg h0, if_pos h]; simp [seqInitBody_eq]
  · unfold MIL_ADCSeqInit
    rcases hv with h | h
    · rw [if_pos h]; simp [seqInitBody_eq]
    · have h0 : base ≠ ADC0_BASE := by rw [h]; decide
      rw [if_neg h0, if_pos h]; simp [seqInitBody_eq]

/-- Instance of C5 (amended): ADC1, sequence 3, bitfield with only bit 12 set. -/
theorem seqInit_empty_request_witness :
    (ADC1_BASE = ADC0_BASE ∨ ADC1_BASE = ADC1_BASE) ∧
    (∀ c, c < 12 → (0x1000 : Nat).testBit c = false) ∧
    ((MIL_ADCSeqInit ADC1_BASE 3 0x1000 MIL_ADC_TimTrig).1 = MIL_ADC_OK ∧
    programmedSteps (MIL_ADCSeqInit ADC1_BASE 3 0x1000 MIL_ADC_TimTrig).2 = [] ∧
    HwCall.ADCSequenceConfigure ADC1_BASE 3 (local_trig MIL_ADC_TimTrig) 3 ∈
      (MIL_ADCSeqInit ADC1_BASE 3 0x1000 MIL_ADC_TimTrig).2 ∧
    HwCall.ADCSequenceEnable ADC1_BASE 3 ∈ (MIL_ADCSeqInit ADC1_BASE 3 0x1000 MIL_ADC_TimTrig).2) :=
  ⟨Or.inr rfl, by decide,
   seqInit_empty_request ADC1_BASE 3 0x1000 MIL_ADC_TimTrig (Or.inr rfl) (by decide)⟩

/-! ## The polling loop of `MIL_ADCGetData` -/

theorem pollLoop_done (base seq_num timeout : Nat) (intStatus : Nat → Nat) (k cnt : Nat)
    (h : intStatus k ≠ 0) :
    pollLoop base seq_num timeout intStatus k cnt =
      (none, [HwCall.ADCIntStatus base seq_num false]) := by
  unfold pollLoop
  rw [if_neg h]

theorem pollLoop_timeout (base seq_num timeout : Nat) (intStatus : Nat → Nat) (k cnt : Nat)
    (h : intStatus k = 0) (ht : (cnt + 1) % 2 ^ 32 = timeout % 2 ^ 32) :
    pollLoop base seq_num timeout intStatus k cnt =
      (some MIL_ADC_NOK, [HwCall.ADCIntStatus base seq_num false]) := by
  unfold pollLoop
  rw [if_pos h, dif_pos ht]

theorem pollLoop_step (base seq_num timeout : Nat) (intStatus : Nat → Nat) (k cnt : Nat)
    (h : intStatus k = 0) (ht : (cnt + 1) % 2 ^ 32 ≠ timeout % 2 ^ 32) :
    pollLoop base seq_num timeout intStatus k cnt =
      ((pollLoop base seq_num timeout intStatus (k + 1) ((cnt + 1) % 2 ^ 32)).1,
        HwCall.ADCIntStatus base seq_num false ::
          (pollLoop base seq_num timeout intStatus (k + 1) ((cnt + 1) % 2 ^ 32)).2) := by
  conv_lhs => unfold pollLoop
  rw [if_pos h, dif_neg ht]

theorem pollLoop_walk (base seq_num timeout : Nat) (intStatus : Nat → Nat) :
    ∀ n k cnt : Nat, cnt < 2 ^ 32 →
      (∀ j, j < n → intStatus (k + j) = 0) →
      (∀ j, j < n → (cnt + j + 1) % 2 ^ 32 ≠ timeout % 2 ^ 32) →
      pollLoop base seq_num timeout intStatus k cnt =
        ((pollLoop base seq_num timeout intStatus (k + n) ((cnt + n) % 2 ^ 32)).1,
          List.replicate n (HwCall.ADCIntStatus base seq_num false) ++
            (pollLoop base seq_num timeout intStatus (k + n) ((cnt + n) % 2 ^ 32)).2) := by
  intro n
  induction n with
  | zero =>
    intro k cnt hcnt _ _
    rw [Nat.add_zero, Nat.add_zero, Nat.mod_eq_of_lt hcnt]
    rfl
  | succ n ih =>
    intro k cnt hcnt hz ht
    have h0 : intStatus k = 0 := by simpa using hz 0 (by omega)
    have ht0 : (cnt + 1) % 2 ^ 32 ≠ timeout % 2 ^ 32 := by simpa using ht 0 (by omega)
    rw [pollLoop_step base seq_num timeout intStatus k cnt h0 ht0]
    have hcnt' : (cnt + 1) % 2 ^ 32 < 2 ^ 32 := Nat.mod_lt _ (by norm_num)
    have hz' : ∀ j, j < n → intStatus (k + 1 + j) = 0 := by
      intro j hj
      have := hz (j + 1) (by omega)
      rwa [show k + (j + 1) = k + 1 + j by omega] at this
    have ht' : ∀ j, j < n → ((cnt + 1) % 2 ^ 32 + j + 1) % 2 ^ 32 ≠ timeout % 2 ^ 32 := by
      intro j hj
      have := ht (j + 1) (by omega)
      have e : ((cnt + 1) % 2 ^ 32 + j + 1) % 2 ^ 32 = (cnt + (j + 1) + 1) % 2 ^ 32 := by omega
      rwa [e]
    rw [ih (k + 1) ((cnt + 1) % 2 ^ 32) hcnt' hz' ht']
    have e1 : ((cnt + 1) % 2 ^ 32 + n) % 2 ^ 32 = (cnt + (n + 1)) % 2 ^ 32 := by omega
    have e2 : k + 1 + n = k + (n + 1) := by omega
    rw [e1, e2]
    simp [List.replicate_succ]

theorem pollBudget_pos (timeout : Nat) : 1 ≤ pollBudget timeout := by
  unfold pollBudget
  split <;> omega

theorem pollBudget_le (timeout : Nat) : pollBudget timeout ≤ 2 ^ 32 := by
  unfold pollBudget
  split <;> omega

theorem pollBudget_mod (timeout : Nat) : pollBudget timeout % 2 ^ 32 = timeout % 2 ^ 32 := by
  unfold pollBudget
  split <;> omega

theorem pollBudget_of_pos (timeout : Nat) (h1 : 1 ≤ timeout) (h2 : timeout < 2 ^ 32) :
    pollBudget timeout = timeout := by
  unfold pollBudget
  split <;> omega

theorem pollBudget_not_reached (timeout j : Nat) (hj : j + 1 < pollBudget timeout) :
    (0 + j + 1) % 2 ^ 32 ≠ timeout % 2 ^ 32 := by
  unfold pollBudget at hj
  split at hj <;> omega

theorem pollLoop_all_clear (base seq_num timeout : Nat) (intStatus : Nat → Nat)
    (hz : ∀ j, j < pollBudget timeout → intStatus j = 0) :
    pollLoop base seq_num timeout intStatus 0 0 =
      (some MIL_ADC_NOK,
        List.replicate (pollBudget timeout) (HwCall.ADCIntStatus base seq_num false)) := by
  have hpos := pollBudget_pos timeout
  have hle := pollBudget_le timeout
  have hmod := pollBudget_mod timeout
  rw [pollLoop_walk base seq_num timeout intStatus (pollBudget timeout - 1) 0 0 (by norm_num)
    (fun j hj => by rw [Nat.zero_add]; exact hz j (by omega))
    (fun j hj => pollBudget_not_reached timeout j (by omega))]
  have hlast : intStatus (0 + (pollBudget timeout - 1)) = 0 := by
    rw [Nat.zero_add]; exact hz _ (by omega)
  have htime : ((0 + (pollBudget timeout - 1)) % 2 ^ 32 + 1) % 2 ^ 32 = timeout % 2 ^ 32 := by
    omega
  rw [pollLoop_timeout base seq_num timeout intStatus _ _ hlast htime]
  have : pollBudget timeout = (pollBudget timeout - 1) + 1 := by omega
  conv_rhs => rw [this, List.replicate_succ']

theorem pollLoop_first_set (base seq_num timeout : Nat) (intStatus : Nat → Nat) (m : Nat)
    (hm : m < pollBudget timeout) (hset : intStatus m ≠ 0)
    (hz : ∀ j, j < m → intStatus j = 0) :
    pollLoop base seq_num timeout intStatus 0 0 =
      (none, List.replicate (m + 1) (HwCall.ADCIntStatus base seq_num false)) := by
  rw [pollLoop_walk base seq_num timeout intStatus m 0 0 (by norm_num)
    (fun j hj => by rw [Nat.zero_add]; exact hz j hj)
    (fun j hj => pollBudget_not_reached timeout j (by omega))]
  have hlast : intStatus (0 + m) ≠ 0 := by rw [Nat.zero_add]; exact hset
  rw [pollLoop_done base seq_num timeout intStatus _ _ hlast, List.replicate_succ']

theorem getData_all_clear (base seq_num timeout : Nat) (pbuffer : List Nat)
    (intStatus : Nat → Nat) (fifo : List Nat)
    (hz : ∀ j, j < pollBudget timeout → intStatus j = 0) :
    MIL_ADCGetData base seq_num timeout pbuffer intStatus fifo =
      { ret := MIL_ADC_NOK, pbuffer := pbuffer, fifo := fifo,
        calls := List.replicate (pollBudget timeout) (HwCall.ADCIntStatus base seq_num false) } := by
  have h := pollLoop_all_clear base seq_num timeout intStatus hz
  show getDataAfterLoop base seq_num pbuffer fifo
    (pollLoop base seq_num timeout intStatus 0 0) = _
  rw [h]
  rfl

theorem getData_first_set (base seq_num timeout : Nat) (pbuffer : List Nat)
    (intStatus : Nat → Nat) (fifo : List Nat) (m : Nat)
    (hm : m < pollBudget timeout) (hset : intStatus m ≠ 0)
    (hz : ∀ j, j < m → intStatus j = 0) :
    MIL_ADCGetData base seq_num timeout pbuffer intStatus fifo =
      { ret := MIL_ADC_OK, pbuffer := dataGet fifo pbuffer, fifo := [],
        calls := List.replicate (m + 1) (HwCall.ADCIntStatus base seq_num false) ++
          [HwCall.ADCSequenceDataGet base seq_num, HwCall.ADCIntClear base seq_num] } := by
  have h := pollLoop_first_set base seq_num timeout intStatus m hm hset hz
  show getDataAfterLoop base seq_num pbuffer fifo
    (pollLoop base seq_num timeout intStatus 0 0) = _
  rw [h]
  rfl

theorem exists_first_set (intStatus : Nat → Nat) (b : Nat)
    (h : ∃ m, m < b ∧ intStatus m ≠ 0) :
    ∃ m, m < b ∧ intStatus m ≠ 0 ∧ ∀ j, j < m → intStatus j = 0 := by
  classical
  refine ⟨Nat.find h, (Nat.find_spec h).1, (Nat.find_spec h).2, ?_⟩
  intro j hj
  by_contra hne
  exact Nat.find_min h hj ⟨Nat.lt_trans hj (Nat.find_spec h).1, hne⟩

theorem pollCount_replicate (base seq_num : Nat) (n : Nat) :
    pollCount (List.replicate n (HwCall.ADCIntStatus base seq_num false)) = n := by
  induction n with
  | zero => rfl
  | succ n ih => simp [List.replicate_succ, pollCount, ih]

theorem pollCount_append (l₁ l₂ : List HwCall) :
    pollCount (l₁ ++ l₂) = pollCount l₁ + pollCount l₂ := by
  induction l₁ with
  | nil => simp [pollCount]
  | cons c cs ih => cases c <;> simp [pollCount, ih]; omega

theorem getData_cases (base seq_num timeout : Nat) (pbuffer : List Nat)
    (intStatus : Nat → Nat) (fifo : List Nat) :
    ((∀ j, j < pollBudget timeout → intStatus j = 0) ∧
      MIL_ADCGetData base seq_num timeout pbuffer intStatus fifo =
        { ret := MIL_ADC_NOK, pbuffer := pbuffer, fifo := fifo,
          calls := List.replicate (pollBudget timeout)
            (HwCall.ADCIntStatus base seq_num false) }) ∨
    (∃ m, m < pollBudget timeout ∧ intStatus m ≠ 0 ∧ (∀ j, j < m → intStatus j = 0) ∧
      MIL_ADCGetData base seq_num timeout pbuffer intStatus fifo =
        { ret := MIL_ADC_OK, pbuffer := dataGet fifo pbuffer, fifo := [],
          calls := List.replicate (m + 1) (HwCall.ADCIntStatus base seq_num false) ++
            [HwCall.ADCSequenceDataGet base seq_num, HwCall.ADCIntClear base seq_num] }) := by
  by_cases h : ∃ m, m < pollBudget timeout ∧ intStatus m ≠ 0
  · obtain ⟨m, hm, hset, hz⟩ := exists_first_set intStatus (pollBudget timeout) h
    exact Or.inr ⟨m, hm, hset, hz,
      getData_first_set base seq_num timeout pbuffer intStatus fifo m hm hset hz⟩
  · have hz : ∀ j, j < pollBudget timeout → intStatus j = 0 := by
      intro j hj
      by_contra hne
      exact h ⟨j, hj, hne⟩
    exact Or.inl ⟨hz, getData_all_clear base seq_num timeout pbuffer intStatus fifo hz⟩

theorem MIL_ADC_HextoFloat_eq_zero (adc_value : Nat) : MIL_ADC_HextoFloat adc_value = 0 := by
  simp [MIL_ADC_HextoFloat]

/-! ## Data acquisition by `MIL_ADCGetData` -/

/-- C6: with `timeout = 0` and no completion pending, `MIL_ADCGetData` does not
return after the first poll.  When the flag is never raised it returns
`MIL_ADC_NOK` only after `2 ^ 32` polls, and when the flag is raised at the
second poll it returns `MIL_ADC_OK` after two polls. -/
theorem getData_timeout_zero_keeps_polling (base seq_num : Nat) (pbuffer fifo : List Nat) :
    ((MIL_ADCGetData base seq_num 0 pbuffer (fun _ => 0) fifo).ret = MIL_ADC_NOK ∧
      pollCount (MIL_ADCGetData base seq_num 0 pbuffer (fun _ => 0) fifo).calls = 2 ^ 32) ∧
    ((MIL_ADCGetData base seq_num 0 pbuffer (fun k => if k = 1 then 1 else 0) fifo).ret
        = MIL_ADC_OK ∧
      pollCount (MIL_ADCGetData base seq_num 0 pbuffer
        (fun k => if k = 1 then 1 else 0) fifo).calls = 2) := by
  have hb : pollBudget 0 = 2 ^ 32 := by
    unfold pollBudget
    rw [if_pos (Nat.zero_mod _)]
  constructor
  · rw [getData_all_clear base seq_num 0 pbuffer (fun _ => 0) fifo (fun _ _ => rfl)]
    exact ⟨rfl, by rw [pollCount_replicate, hb]⟩
  · rw [getData_first_set base seq_num 0 pbuffer (fun k => if k = 1 then 1 else 0) fifo 1
      (by rw [hb]; norm_num) (by simp) (fun j hj => by
        have : j ≠ 1 := by omega
        simp [this])]
    refine ⟨rfl, ?_⟩
    show pollCount (List.replicate (1 + 1) (HwCall.ADCIntStatus base seq_num false) ++
      [HwCall.ADCSequenceDataGet base seq_num, HwCall.ADCIntClear base seq_num]) = 2
    rw [pollCount_append, pollCount_replicate]
    rfl

/-- C7: for every `timeout` with `1 ≤ timeout < 2 ^ 32` and every sequence of
flag observations, `MIL_ADCGetData` polls the completion flag at most `timeout`
times; it returns `MIL_ADC_NOK` if and only if the first `timeout` polls all
report "not complete", and otherwise returns `MIL_ADC_OK` at the first poll
that reports completion. -/
theorem getData_poll_budget (base seq_num timeout : Nat) (pbuffer : List Nat)
    (intStatus : Nat → Nat) (fifo : List Nat)
    (h1 : 1 ≤ timeout) (h2 : timeout < 2 ^ 32) :
    pollCount (MIL_ADCGetData base seq_num timeout pbuffer intStatus fifo).calls ≤ timeout ∧
    ((MIL_ADCGetData base seq_num timeout pbuffer intStatus fifo).ret = MIL_ADC_NOK ↔
      ∀ j, j < timeout → intStatus j = 0) ∧
    (∀ m, m < timeout → intStatus m ≠ 0 → (∀ j, j < m → intStatus j = 0) →
      (MIL_ADCGetData base seq_num timeout pbuffer intStatus fifo).ret = MIL_ADC_OK ∧
      pollCount (MIL_ADCGetData base seq_num timeout pbuffer intStatus fifo).calls = m + 1) := by
  have hb := pollBudget_of_pos timeout h1 h2
  have hfirst : ∀ m, m < timeout → intStatus m ≠ 0 → (∀ j, j < m → intStatus j = 0) →
      (MIL_ADCGetData base seq_num timeout pbuffer intStatus fifo).ret = MIL_ADC_OK ∧
      pollCount (MIL_ADCGetData base seq_num timeout pbuffer intStatus fifo).calls = m + 1 := by
    intro m hm hset hz
    rw [getData_first_set base seq_num timeout pbuffer intStatus fifo m (by rw [hb]; exact hm)
      hset hz]
    refine ⟨rfl, ?_⟩
    show pollCount (List.replicate (m + 1) (HwCall.ADCIntStatus base seq_num false) ++
      [HwCall.ADCSequenceDataGet base seq_num, HwCall.ADCIntClear base seq_num]) = m + 1
    rw [pollCount_append, pollCount_replicate]
    rfl
  rcases getData_cases base seq_num timeout pbuffer intStatus fifo with ⟨hz, heq⟩ | ⟨m, hm, hset, hz, _⟩
  · rw [hb] at hz heq
    refine ⟨?_, ?_, hfirst⟩
    · rw [heq]
      show pollCount (List.replicate timeout (HwCall.ADCIntStatus base seq_num false)) ≤ timeout
      rw [pollCount_replicate]
    · rw [heq]
      exact ⟨fun _ => hz, fun _ => rfl⟩
  · rw [hb] at hm
    obtain ⟨hret, hcount⟩ := hfirst m hm hset hz
    refine ⟨by rw [hcount]; omega, ?_, hfirst⟩
    rw [hret]
    constructor
    · intro h
      exact absurd h (by decide)
    · intro h
      exact absurd (h m hm) hset

/-- Instance of C7: a budget of 3 polls, completion reported at the second. -/
theorem getData_poll_budget_witness :
    (1 ≤ 3 ∧ 3 < 2 ^ 32) ∧
    (pollCount (MIL_ADCGetData ADC0_BASE 1 3 [0, 0] (fun k => if k = 1 then 1 else 0)
        [7, 9]).calls ≤ 3 ∧
    ((MIL_ADCGetData ADC0_BASE 1 3 [0, 0] (fun k => if k = 1 then 1 else 0) [7, 9]).ret
        = MIL_ADC_NOK ↔
      ∀ j, j < 3 → (fun k => if k = 1 then 1 else 0) j = 0) ∧
    (∀ m, m < 3 → (fun k => if k = 1 then 1 else 0) m ≠ 0 →
      (∀ j, j < m → (fun k => if k = 1 then 1 else 0) j = 0) →
      (MIL_ADCGetData ADC0_BASE 1 3 [0, 0] (fun k => if k = 1 then 1 else 0) [7, 9]).ret
        = MIL_ADC_OK ∧
      pollCount (MIL_ADCGetData ADC0_BASE 1 3 [0, 0] (fun k => if k = 1 then 1 else 0)
        [7, 9]).calls = m + 1)) :=
  ⟨⟨by decide, by norm_num⟩,
   getData_poll_budget ADC0_BASE 1 3 [0, 0] (fun k => if k = 1 then 1 else 0) [7, 9]
     (by decide) (by norm_num)⟩

/-- C8: whenever completion is observed within the budget (at a poll before the
`timeout`-th, or at the very first poll whatever the timeout, 0 included),
`MIL_ADCGetData` fetches the samples into the caller's buffer (the buffer then
starts with the samples of the FIFO, one per slot and in slot order, its
remainder is untouched, and the FIFO is drained), then clears the completion
flag, exactly once and only after the fetch, and returns `MIL_ADC_OK`. -/
theorem getData_completion (base seq_num timeout : Nat) (pbuffer : List Nat)
    (intStatus : Nat → Nat) (fifo : List Nat) (h2 : timeout < 2 ^ 32)
    (hobs : (∃ m, m < timeout ∧ intStatus m ≠ 0) ∨ intStatus 0 ≠ 0) :
    (MIL_ADCGetData base seq_num timeout pbuffer intStatus fifo).ret = MIL_ADC_OK ∧
    (MIL_ADCGetData base seq_num timeout pbuffer intStatus fifo).pbuffer.take fifo.length =
      fifo ∧
    (∀ k, k < fifo.length →
      (MIL_ADCGetData base seq_num timeout pbuffer intStatus fifo).pbuffer[k]? = fifo[k]?) ∧
    (MIL_ADCGetData base seq_num timeout pbuffer intStatus fifo).pbuffer.drop fifo.length =
      pbuffer.drop fifo.length ∧
    (MIL_ADCGetData base seq_num timeout pbuffer intStatus fifo).fifo = [] ∧
    (∃ n, 1 ≤ n ∧ (MIL_ADCGetData base seq_num timeout pbuffer intStatus fifo).calls =
      List.replicate n (HwCall.ADCIntStatus base seq_num false) ++
        [HwCall.ADCSequenceDataGet base seq_num, HwCall.ADCIntClear base seq_num]) ∧
    List.count (HwCall.ADCIntClear base seq_num)
      (MIL_ADCGetData base seq_num timeout pbuffer intStatus fifo).calls = 1 := by
  have hex : ∃ m, m < pollBudget timeout ∧ intStatus m ≠ 0 := by
    rcases hobs with ⟨m, hm, hset⟩ | h0
    · have h1 : 1 ≤ timeout := by omega
      exact ⟨m, by rw [pollBudget_of_pos timeout h1 h2]; exact hm, hset⟩
    · exact ⟨0, pollBudget_pos timeout, h0⟩
  obtain ⟨m, hm, hset, hz⟩ := exists_first_set intStatus (pollBudget timeout) hex
  rw [getData_first_set base seq_num timeout pbuffer intStatus fifo m hm hset hz]
  refine ⟨rfl, ?_, ?_, ?_, rfl, ⟨m + 1, by omega, rfl⟩, ?_⟩
  · show (fifo ++ pbuffer.drop fifo.length).take fifo.length = fifo
    exact List.take_left' rfl
  · intro k hk
    show (fifo ++ pbuffer.drop fifo.length)[k]? = fifo[k]?
    exact List.getElem?_append_left hk
  · show (fifo ++ pbuffer.drop fifo.length).drop fifo.length = pbuffer.drop fifo.length
    exact List.drop_left' rfl
  · show List.count (HwCall.ADCIntClear base seq_num)
      (List.replicate (m + 1) (HwCall.ADCIntStatus base seq_num false) ++
        [HwCall.ADCSequenceDataGet base seq_num, HwCall.ADCIntClear base seq_num]) = 1
    rw [List.count_append, List.count_replicate]
    simp [List.count_cons]

/-- Instance of C8: `timeout = 0` with the completion already pending; the
buffer `[0, 0, 0]` becomes `[7, 9, 0]` for the FIFO contents `[7, 9]`. -/
theorem getData_completion_witness :
    (0 < 2 ^ 32) ∧
    ((∃ m, m < 0 ∧ (fun _ : Nat => 1) m ≠ 0) ∨ (fun _ : Nat => 1) 0 ≠ 0) ∧
    ((MIL_ADCGetData ADC0_BASE 1 0 [0, 0, 0] (fun _ => 1) [7, 9]).ret = MIL_ADC_OK ∧
    (MIL_ADCGetData ADC0_BASE 1 0 [0, 0, 0] (fun _ => 1) [7, 9]).pbuffer.take
      [7, 9].length = [7, 9] ∧
    (∀ k, k < [7, 9].length →
      (MIL_ADCGetData ADC0_BASE 1 0 [0, 0, 0] (fun _ => 1) [7, 9]).pbuffer[k]? = [7, 9][k]?) ∧
    (MIL_ADCGetData ADC0_BASE 1 0 [0, 0, 0] (fun _ => 1) [7, 9]).pbuffer.drop [7, 9].length =
      [0, 0, 0].drop [7, 9].length ∧
    (MIL_ADCGetData ADC0_BASE 1 0 [0, 0, 0] (fun _ => 1) [7, 9]).fifo = [] ∧
    (∃ n, 1 ≤ n ∧ (MIL_ADCGetData ADC0_BASE 1 0 [0, 0, 0] (fun _ => 1) [7, 9]).calls =
      List.replicate n (HwCall.ADCIntStatus ADC0_BASE 1 false) ++
        [HwCall.ADCSequenceDataGet ADC0_BASE 1, HwCall.ADCIntClear ADC0_BASE 1]) ∧
    List.count (HwCall.ADCIntClear ADC0_BASE 1)
      (MIL_ADCGetData ADC0_BASE 1 0 [0, 0, 0] (fun _ => 1) [7, 9]).calls = 1) ∧
    (MIL_ADCGetData ADC0_BASE 1 0 [0, 0, 0] (fun _ => 1) [7, 9]).pbuffer = [7, 9, 0] :=
  ⟨by norm_num, Or.inr (by decide),
   getData_completion ADC0_BASE 1 0 [0, 0, 0] (fun _ => 1) [7, 9] (by norm_num)
     (Or.inr (by decide)),
   by
     rw [getData_first_set ADC0_BASE 1 0 [0, 0, 0] (fun _ => 1) [7, 9] 0 (pollBudget_pos 0)
       (by decide) (fun j hj => absurd hj (Nat.not_lt_zero j))]
     rfl⟩

/-- C9: whenever `MIL_ADCGetData` returns `MIL_ADC_NOK`, the caller's buffer and
the sample FIFO are unchanged and the only calls made are polls of the
completion flag: the FIFO is not read and the flag is not cleared. -/
theorem getData_timeout_no_effect (base seq_num timeout : Nat) (pbuffer : List Nat)
    (intStatus : Nat → Nat) (fifo : List Nat)
    (hnok : (MIL_ADCGetData base seq_num timeout pbuffer intStatus fifo).ret = MIL_ADC_NOK) :
    (MIL_ADCGetData base seq_num timeout pbuffer intStatus fifo).pbuffer = pbuffer ∧
    (MIL_ADCGetData base seq_num timeout pbuffer intStatus fifo).fifo = fifo ∧
    (∀ c, c ∈ (MIL_ADCGetData base seq_num timeout pbuffer intStatus fifo).calls →
      c = HwCall.ADCIntStatus base seq_num false) ∧
    HwCall.ADCSequenceDataGet base seq_num ∉
      (MIL_ADCGetData base seq_num timeout pbuffer intStatus fifo).calls ∧
    HwCall.ADCIntClear base seq_num ∉
      (MIL_ADCGetData base seq_num timeout pbuffer intStatus fifo).calls := by
  rcases getData_cases base seq_num timeout pbuffer intStatus fifo with
    ⟨_, heq⟩ | ⟨m, _, _, _, heq⟩
  · rw [heq]
    have hall : ∀ c, c ∈ List.replicate (pollBudget timeout)
        (HwCall.ADCIntStatus base seq_num false) →
        c = HwCall.ADCIntStatus base seq_num false :=
      fun c hc => (List.mem_replicate.mp hc).2
    refine ⟨rfl, rfl, hall, ?_, ?_⟩
    · intro hmem
      exact absurd (hall _ hmem) (by simp)
    · intro hmem
      exact absurd (hall _ hmem) (by simp)
  · rw [heq] at hnok
    exact absurd (show MIL_ADC_OK = MIL_ADC_NOK from hnok) (by decide)

/-- Instance of C9: a budget of 2 polls and a flag that is never raised. -/
theorem getData_timeout_no_effect_witness :
    (MIL_ADCGetData ADC0_BASE 1 2 [5, 6] (fun _ => 0) [7, 9]).ret = MIL_ADC_NOK ∧
    ((MIL_ADCGetData ADC0_BASE 1 2 [5, 6] (fun _ => 0) [7, 9]).pbuffer = [5, 6] ∧
    (MIL_ADCGetData ADC0_BASE 1 2 [5, 6] (fun _ => 0) [7, 9]).fifo = [7, 9] ∧
    (∀ c, c ∈ (MIL_ADCGetData ADC0_BASE 1 2 [5, 6] (fun _ => 0) [7, 9]).calls →
      c = HwCall.ADCIntStatus ADC0_BASE 1 false) ∧
    HwCall.ADCSequenceDataGet ADC0_BASE 1 ∉
      (MIL_ADCGetData ADC0_BASE 1 2 [5, 6] (fun _ => 0) [7, 9]).calls ∧
    HwCall.ADCIntClear ADC0_BASE 1 ∉
      (MIL_ADCGetData ADC0_BASE 1 2 [5, 6] (fun _ => 0) [7, 9]).calls) :=
  ⟨by rw [getData_all_clear ADC0_BASE 1 2 [5, 6] (fun _ => 0) [7, 9] (fun _ _ => rfl)],
   getData_timeout_no_effect ADC0_BASE 1 2 [5, 6] (fun _ => 0) [7, 9]
     (by rw [getData_all_clear ADC0_BASE 1 2 [5, 6] (fun _ => 0) [7, 9] (fun _ _ => rfl)])⟩

/-! ## Conversion to volts -/

/-- C10: `MIL_ADC_HextoFloat` does not compute `raw * (3 / 4095)`: its slope
`3/0xFFF` is an integer division, so the result is 0 for every raw value; raw
4095 maps to 0 and not to 3, and raw 2048 maps to 0 and not to `2048 * 3 / 4095`. -/
theorem hexToFloat_slope_is_zero :
    MIL_ADC_HextoFloat 4095 = 0 ∧ MIL_ADC_HextoFloat 4095 ≠ 3 ∧
    MIL_ADC_HextoFloat 2048 = 0 ∧ MIL_ADC_HextoFloat 2048 ≠ 2048 * (3 / 4095 : ℚ) := by
  refine ⟨MIL_ADC_HextoFloat_eq_zero _, ?_, MIL_ADC_HextoFloat_eq_zero _, ?_⟩
  · rw [MIL_ADC_HextoFloat_eq_zero]; norm_num
  · rw [MIL_ADC_HextoFloat_eq_zero]; norm_num

/-! ## Validation of the request by `MIL_ADCSeqInit` -/

theorem MIL_ADCSeqInit_and_0FFF (base seq_num p : Nat) (trig : mil_trig_t) :
    MIL_ADCSeqInit base seq_num (p &&& 0x0FFF) trig = MIL_ADCSeqInit base seq_num p trig := by
  unfold MIL_ADCSeqInit
  simp only [seqInitBody_eq, requested_and_0FFF]

/-- C12, as stated, fails: a pin bitfield with bit 12 set (`0x1003`) is not
rejected; `MIL_ADCSeqInit` returns `MIL_ADC_OK` and programs the channels 0
and 1. -/
theorem seqInit_bit12_accepted :
    (0x1003 : Nat).testBit 12 = true ∧
    (MIL_ADCSeqInit ADC0_BASE MIL_ADC_SEQ0 0x1003 MIL_ADC_SoftTrig).1 = MIL_ADC_OK ∧
    (MIL_ADCSeqInit ADC0_BASE MIL_ADC_SEQ0 0x1003 MIL_ADC_SoftTrig).1 ≠ MIL_ADC_NOK ∧
    slotPlan (MIL_ADCSeqInit ADC0_BASE MIL_ADC_SEQ0 0x1003 MIL_ADC_SoftTrig).2 =
      [(0, 0, false), (1, 1, true)] := by
  rw [MIL_ADCSeqInit_ADC0]
  decide

/-- C12 (amended): bits 12..15 of the pin bitfield are ignored.  With a valid
ADC base `MIL_ADCSeqInit` returns `MIL_ADC_OK` whatever these bits are, and the
whole run (status and calls made) is that of the bitfield masked with
`0x0FFF`. -/
theorem seqInit_high_bits_ignored (base seq_num pin_bitfield : Nat) (trig : mil_trig_t)
    (hv : base = ADC0_BASE ∨ base = ADC1_BASE) :
    (MIL_ADCSeqInit base seq_num pin_bitfield trig).1 = MIL_ADC_OK ∧
    MIL_ADCSeqInit base seq_num pin_bitfield trig =
      MIL_ADCSeqInit base seq_num (pin_bitfield &&& 0x0FFF) trig ∧
    ∀ ch, ch ∈ programmedChannels (MIL_ADCSeqInit base seq_num pin_bitfield trig).2 → ch < 12 := by
  refine ⟨ok_of_valid base seq_num pin_bitfield trig hv,
    (MIL_ADCSeqInit_and_0FFF base seq_num pin_bitfield trig).symm, ?_⟩
  intro ch hch
  rw [programmedChannels_of_valid base seq_num pin_bitfield trig hv] at hch
  exact ((requested_mem pin_bitfield ch).mp (List.mem_of_mem_take hch)).1

/-- Instance of C12 (amended): ADC0, sequence 0, bitfield `0xF003`. -/
theorem seqInit_high_bits_ignored_witness :
    (ADC0_BASE = ADC0_BASE ∨ ADC0_BASE = ADC1_BASE) ∧
    ((MIL_ADCSeqInit ADC0_BASE 0 0xF003 MIL_ADC_SoftTrig).1 = MIL_ADC_OK ∧
    MIL_ADCSeqInit ADC0_BASE 0 0xF003 MIL_ADC_SoftTrig =
      MIL_ADCSeqInit ADC0_BASE 0 (0xF003 &&& 0x0FFF) MIL_ADC_SoftTrig ∧
    ∀ ch, ch ∈ programmedChannels (MIL_ADCSeqInit ADC0_BASE 0 0xF003 MIL_ADC_SoftTrig).2 →
      ch < 12) :=
  ⟨Or.inl rfl, seqInit_high_bits_ignored ADC0_BASE 0 0xF003 MIL_ADC_SoftTrig (Or.inl rfl)⟩

/-- C13, as stated, fails: a sequence number outside 0..3 (here 9, and 255) is
not rejected; with a valid base `MIL_ADCSeqInit` returns `MIL_ADC_OK` and
configures that sequence number with a step limit of 1. -/
theorem seqInit_unknown_sequence_accepted :
    (MIL_ADCSeqInit ADC0_BASE 9 0x824 MIL_ADC_SoftTrig).1 = MIL_ADC_OK ∧
    (MIL_ADCSeqInit ADC0_BASE 9 0x824 MIL_ADC_SoftTrig).1 ≠ MIL_ADC_NOK ∧
    HwCall.ADCSequenceEnable ADC0_BASE 9 ∈
      (MIL_ADCSeqInit ADC0_BASE 9 0x824 MIL_ADC_SoftTrig).2 ∧
    (MIL_ADCSeqInit ADC1_BASE 255 0x001 MIL_ADC_TimTrig).1 = MIL_ADC_OK := by
  refine ⟨?_, ?_, ?_, ok_of_valid _ _ _ _ (Or.inr rfl)⟩
  · rw [MIL_ADCSeqInit_ADC0]
  · rw [MIL_ADCSeqInit_ADC0]; decide
  · rw [MIL_ADCSeqInit_ADC0]; decide

/-- C13 (amended): for every call of `MIL_ADCSeqInit` whose ADC base is neither
`ADC0_BASE` nor `ADC1_BASE`, whatever the sequence number, configuration fails
with `MIL_ADC_NOK`, and no hardware call is made. -/
theorem seqInit_invalid_base (base seq_num pin_bitfield : Nat) (trig : mil_trig_t)
    (h0 : base ≠ ADC0_BASE) (h1 : base ≠ ADC1_BASE) :
    (MIL_ADCSeqInit base seq_num pin_bitfield trig).1 = MIL_ADC_NOK ∧
    (MIL_ADCSeqInit base seq_num pin_bitfield trig).2 = [] := by
  rw [MIL_ADCSeqInit_of_invalid base seq_num pin_bitfield trig h0 h1]
  exact ⟨rfl, rfl⟩

/-- Instance of C13 (amended): base `0x40004000` (not an ADC module), sequence 0. -/
theorem seqInit_invalid_base_witness :
    (0x40004000 ≠ ADC0_BASE) ∧ (0x40004000 ≠ ADC1_BASE) ∧
    ((MIL_ADCSeqInit 0x40004000 0 0x001 MIL_ADC_SoftTrig).1 = MIL_ADC_NOK ∧
    (MIL_ADCSeqInit 0x40004000 0 0x001 MIL_ADC_SoftTrig).2 = []) :=
  ⟨by decide, by decide,
   seqInit_invalid_base 0x40004000 0 0x001 MIL_ADC_SoftTrig (by decide) (by decide)⟩

/-- C14: the step limit applied to sequence 3 is 4, not 1: with four channels
requested on sequence 3, `MIL_ADCSeqInit` programs four steps.  (Sequence 0 does
get the limit 8.) -/
theorem seqInit_sequence3_capacity :
    step_max MIL_ADC_SEQ3 = 4 ∧
    (MIL_ADCSeqInit ADC0_BASE MIL_ADC_SEQ3 0x00F MIL_ADC_SoftTrig).1 = MIL_ADC_OK ∧
    slotPlan (MIL_ADCSeqInit ADC0_BASE MIL_ADC_SEQ3 0x00F MIL_ADC_SoftTrig).2 =
      [(0, 0, false), (1, 1, false), (2, 2, false), (3, 3, true)] ∧
    step_max MIL_ADC_SEQ0 = 8 := by
  rw [MIL_ADCSeqInit_ADC0]
  decide

/-! ## Scenarios and determinism of the allocation -/

/-- C15: with capacity 4 (a sequence number whose step limit is 4) and the
channels {1, 4, 9} requested (`0x212`), the allocation succeeds and programs
exactly step 0 with channel 1, step 1 with channel 4 and step 2 with channel 9
and the terminal flag: the slot plan is `[(0,1,false), (1,4,false), (2,9,true)]`. -/
theorem seqInit_scenario_capacity4 (base seq_num : Nat) (trig : mil_trig_t)
    (hv : base = ADC0_BASE ∨ base = ADC1_BASE) (hcap : step_max seq_num = 4) :
    (MIL_ADCSeqInit base seq_num 0x212 trig).1 = MIL_ADC_OK ∧
    programmedSteps (MIL_ADCSeqInit base seq_num 0x212 trig).2 =
      [(0, 1), (1, 4), (2, 9 ||| (ADC_CTL_END ||| ADC_CTL_IE))] ∧
    slotPlan (MIL_ADCSeqInit base seq_num 0x212 trig).2 =
      [(0, 1, false), (1, 4, false), (2, 9, true)] := by
  have hsteps : programmedSteps (MIL_ADCSeqInit base seq_num 0x212 trig).2 =
      [(0, 1), (1, 4), (2, 9 ||| (ADC_CTL_END ||| ADC_CTL_IE))] := by
    rw [programmedSteps_of_valid base seq_num 0x212 trig hv, hcap]
    decide
  refine ⟨ok_of_valid base seq_num 0x212 trig hv, hsteps, ?_⟩
  unfold slotPlan
  rw [hsteps]
  decide

/-- Instance of C15: ADC0, sequence 1. -/
theorem seqInit_scenario_capacity4_witness :
    (ADC0_BASE = ADC0_BASE ∨ ADC0_BASE = ADC1_BASE) ∧ step_max MIL_ADC_SEQ1 = 4 ∧
    ((MIL_ADCSeqInit ADC0_BASE MIL_ADC_SEQ1 0x212 MIL_ADC_SoftTrig).1 = MIL_ADC_OK ∧
    programmedSteps (MIL_ADCSeqInit ADC0_BASE MIL_ADC_SEQ1 0x212 MIL_ADC_SoftTrig).2 =
      [(0, 1), (1, 4), (2, 9 ||| (ADC_CTL_END ||| ADC_CTL_IE))] ∧
    slotPlan (MIL_ADCSeqInit ADC0_BASE MIL_ADC_SEQ1 0x212 MIL_ADC_SoftTrig).2 =
      [(0, 1, false), (1, 4, false), (2, 9, true)]) :=
  ⟨Or.inl rfl, by decide,
   seqInit_scenario_capacity4 ADC0_BASE MIL_ADC_SEQ1 MIL_ADC_SoftTrig (Or.inl rfl) (by decide)⟩

/-- C16: with capacity 1 (a sequence number whose step limit is 1) and the
channels {2, 5, 11} requested (`0x824`), the allocation succeeds and programs
only step 0, with channel 2 and the terminal flag: the slot plan is
`[(0,2,true)]`, and the channels 5 and 11 are dropped. -/
theorem seqInit_scenario_capacity1 (base seq_num : Nat) (trig : mil_trig_t)
    (hv : base = ADC0_BASE ∨ base = ADC1_BASE) (hcap : step_max seq_num = 1) :
    (MIL_ADCSeqInit base seq_num 0x824 trig).1 = MIL_ADC_OK ∧
    programmedSteps (MIL_ADCSeqInit base seq_num 0x824 trig).2 =
      [(0, 2 ||| (ADC_CTL_END ||| ADC_CTL_IE))] ∧
    slotPlan (MIL_ADCSeqInit base seq_num 0x824 trig).2 = [(0, 2, true)] ∧
    5 ∉ programmedChannels (MIL_ADCSeqInit base seq_num 0x824 trig).2 ∧
    11 ∉ programmedChannels (MIL_ADCSeqInit base seq_num 0x824 trig).2 := by
  have hsteps : programmedSteps (MIL_ADCSeqInit base seq_num 0x824 trig).2 =
      [(0, 2 ||| (ADC_CTL_END ||| ADC_CTL_IE))] := by
    rw [programmedSteps_of_valid base seq_num 0x824 trig hv, hcap]
    decide
  refine ⟨ok_of_valid base seq_num 0x824 trig hv, hsteps, ?_, ?_, ?_⟩
  · unfold slotPlan
    rw [hsteps]
    decide
  · unfold programmedChannels
    rw [hsteps]
    decide
  · unfold programmedChannels
    rw [hsteps]
    decide

/-- Instance of C16: ADC1, sequence number 4 (step limit 1). -/
theorem seqInit_scenario_capacity1_witness :
    (ADC1_BASE = ADC0_BASE ∨ ADC1_BASE = ADC1_BASE) ∧ step_max 4 = 1 ∧
    ((MIL_ADCSeqInit ADC1_BASE 4 0x824 MIL_ADC_AlwaysTrig).1 = MIL_ADC_OK ∧
    programmedSteps (MIL_ADCSeqInit ADC1_BASE 4 0x824 MIL_ADC_AlwaysTrig).2 =
      [(0, 2 ||| (ADC_CTL_END ||| ADC_CTL_IE))] ∧
    slotPlan (MIL_ADCSeqInit ADC1_BASE 4 0x824 MIL_ADC_AlwaysTrig).2 = [(0, 2, true)] ∧
    5 ∉ programmedChannels (MIL_ADCSeqInit ADC1_BASE 4 0x824 MIL_ADC_AlwaysTrig).2 ∧
    11 ∉ programmedChannels (MIL_ADCSeqInit ADC1_BASE 4 0x824 MIL_ADC_AlwaysTrig).2) :=
  ⟨Or.inr rfl, by decide,
   seqInit_scenario_capacity1 ADC1_BASE 4 MIL_ADC_AlwaysTrig (Or.inr rfl) (by decide)⟩

/-- C17: the slot plan depends only on the sequence number and the pin
bitfield: two calls of `MIL_ADCSeqInit` with the same sequence number and pin
bitfield, with any trigger kinds and any of the two valid ADC bases, return the
same status and program the same steps with the same configuration words. -/
theorem seqInit_plan_deterministic (base₁ base₂ seq_num pin_bitfield : Nat)
    (trig₁ trig₂ : mil_trig_t)
    (hv₁ : base₁ = ADC0_BASE ∨ base₁ = ADC1_BASE)
    (hv₂ : base₂ = ADC0_BASE ∨ base₂ = ADC1_BASE) :
    (MIL_ADCSeqInit base₁ seq_num pin_bitfield trig₁).1 =
      (MIL_ADCSeqInit base₂ seq_num pin_bitfield trig₂).1 ∧
    programmedSteps (MIL_ADCSeqInit base₁ seq_num pin_bitfield trig₁).2 =
      programmedSteps (MIL_ADCSeqInit base₂ seq_num pin_bitfield trig₂).2 ∧
    slotPlan (MIL_ADCSeqInit base₁ seq_num pin_bitfield trig₁).2 =
      slotPlan (MIL_ADCSeqInit base₂ seq_num pin_bitfield trig₂).2 := by
  have hsteps : programmedSteps (MIL_ADCSeqInit base₁ seq_num pin_bitfield trig₁).2 =
      programmedSteps (MIL_ADCSeqInit base₂ seq_num pin_bitfield trig₂).2 := by
    rw [programmedSteps_of_valid base₁ seq_num pin_bitfield trig₁ hv₁,
      programmedSteps_of_valid base₂ seq_num pin_bitfield trig₂ hv₂]
  refine ⟨?_, hsteps, ?_⟩
  · rw [ok_of_valid base₁ seq_num pin_bitfield trig₁ hv₁,
      ok_of_valid base₂ seq_num pin_bitfield trig₂ hv₂]
  · unfold slotPlan
    rw [hsteps]

/-- Instance of C17: ADC0 with the software trigger against ADC1 with the timer
trigger, sequence 1, channels {1, 4, 9}. -/
theorem seqInit_plan_deterministic_witness :
    (ADC0_BASE = ADC0_BASE ∨ ADC0_BASE = ADC1_BASE) ∧
    (ADC1_BASE = ADC0_BASE ∨ ADC1_BASE = ADC1_BASE) ∧
    ((MIL_ADCSeqInit ADC0_BASE 1 0x212 MIL_ADC_SoftTrig).1 =
      (MIL_ADCSeqInit ADC1_BASE 1 0x212 MIL_ADC_TimTrig).1 ∧
    programmedSteps (MIL_ADCSeqInit ADC0_BASE 1 0x212 MIL_ADC_SoftTrig).2 =
      programmedSteps (MIL_ADCSeqInit ADC1_BASE 1 0x212 MIL_ADC_TimTrig).2 ∧
    slotPlan (MIL_ADCSeqInit ADC0_BASE 1 0x212 MIL_ADC_SoftTrig).2 =
      slotPlan (MIL_ADCSeqInit ADC1_BASE 1 0x212 MIL_ADC_TimTrig).2) :=
  ⟨Or.inl rfl, Or.inr rfl,
   seqInit_plan_deterministic ADC0_BASE ADC1_BASE 1 0x212 MIL_ADC_SoftTrig MIL_ADC_TimTrig
     (Or.inl rfl) (Or.inr rfl)⟩

/-! ## Software trigger -/

/-- C20, as stated, fails: in a session configured with `MIL_ADC_SoftTrig`, a
read with `MIL_ADCGetData` issues no software trigger; its calls are one poll,
the data fetch and the flag clear. -/
theorem getData_soft_session_no_trigger :
    (MIL_ADCSeqInit ADC0_BASE 1 0x212 MIL_ADC_SoftTrig).1 = MIL_ADC_OK ∧
    HwCall.ADCSequenceConfigure ADC0_BASE 1 ADC_TRIGGER_PROCESSOR 1 ∈
      (MIL_ADCSeqInit ADC0_BASE 1 0x212 MIL_ADC_SoftTrig).2 ∧
    (MIL_ADCGetData ADC0_BASE 1 3 [0, 0, 0] (fun _ => 1) [5, 6, 7]).calls =
      [HwCall.ADCIntStatus ADC0_BASE 1 false, HwCall.ADCSequenceDataGet ADC0_BASE 1,
       HwCall.ADCIntClear ADC0_BASE 1] ∧
    List.count (HwCall.ADCProcessorTrigger ADC0_BASE 1)
      (MIL_ADCGetData ADC0_BASE 1 3 [0, 0, 0] (fun _ => 1) [5, 6, 7]).calls = 0 := by
  have hget := getData_first_set ADC0_BASE 1 3 [0, 0, 0] (fun _ => 1) [5, 6, 7] 0
    (pollBudget_pos 3) (by decide) (fun j hj => absurd hj (Nat.not_lt_zero j))
  rw [hget, MIL_ADCSeqInit_ADC0]
  decide

/-- C20 (amended): `MIL_ADCGetData` issues no software trigger, whatever the
trigger kind the sequence was configured with (the function does not receive
it): every call it makes is a poll of the completion flag, the data fetch or
the flag clear.  `MIL_ADCSeqInit` issues no software trigger either. -/
theorem getData_no_trigger (base seq_num timeout : Nat) (pbuffer : List Nat)
    (intStatus : Nat → Nat) (fifo : List Nat) (trig : mil_trig_t) (pin_bitfield : Nat) :
    (∀ c, c ∈ (MIL_ADCGetData base seq_num timeout pbuffer intStatus fifo).calls →
      c = HwCall.ADCIntStatus base seq_num false ∨ c = HwCall.ADCSequenceDataGet base seq_num ∨
      c = HwCall.ADCIntClear base seq_num) ∧
    (∀ b s, HwCall.ADCProcessorTrigger b s ∉
      (MIL_ADCGetData base seq_num timeout pbuffer intStatus fifo).calls) ∧
    (∀ b s, HwCall.ADCProcessorTrigger b s ∉
      (MIL_ADCSeqInit base seq_num pin_bitfield trig).2) := by
  have hcalls : ∀ c, c ∈ (MIL_ADCGetData base seq_num timeout pbuffer intStatus fifo).calls →
      c = HwCall.ADCIntStatus base seq_num false ∨ c = HwCall.ADCSequenceDataGet base seq_num ∨
      c = HwCall.ADCIntClear base seq_num := by
    intro c hc
    rcases getData_cases base seq_num timeout pbuffer intStatus fifo with
      ⟨_, heq⟩ | ⟨m, _, _, _, heq⟩
    · rw [heq] at hc
      exact Or.inl (List.mem_replicate.mp hc).2
    · rw [heq] at hc
      rcases List.mem_append.mp hc with h | h
      · exact Or.inl (List.mem_replicate.mp h).2
      · simp only [List.mem_cons, List.mem_singleton, List.not_mem_nil, or_false] at h
        exact Or.inr h
  refine ⟨hcalls, ?_, ?_⟩
  · intro b s hmem
    rcases hcalls _ hmem with h | h | h <;> exact absurd h (by simp)
  · intro b s hmem
    by_cases hv : base = ADC0_BASE ∨ base = ADC1_BASE
    · have hsteps : ∀ n i chs, HwCall.ADCProcessorTrigger b s ∉
          stepCalls base seq_num n i chs := by
        intro n i chs
        induction chs generalizing i with
        | nil => simp [stepCalls]
        | cons ch chs ih => simp [stepCalls, ih]
      unfold MIL_ADCSeqInit at hmem
      rcases hv with h | h
      · rw [if_pos h] at hmem
        simp [seqInitBody_eq, hsteps] at hmem
      · have h0 : base ≠ ADC0_BASE := by rw [h]; decide
        rw [if_neg h0, if_pos h] at hmem
        simp [seqInitBody_eq, hsteps] at hmem
    · have h0 : base ≠ ADC0_BASE := fun h => hv (Or.inl h)
      have h1 : base ≠ ADC1_BASE := fun h => hv (Or.inr h)
      rw [MIL_ADCSeqInit_of_invalid base seq_num pin_bitfield trig h0 h1] at hmem
      exact absurd hmem (List.not_mem_nil _)

/-! ## Conversions to text and to volts -/

/-- C18: `MIL_ADC_HextoFloat` is monotonic non-decreasing over the raw values
0..4095, and maps 0 to 0. -/
theorem hexToFloat_monotone (a b : Nat) (_hab : a ≤ b) (_hb : b ≤ 4095) :
    MIL_ADC_HextoFloat a ≤ MIL_ADC_HextoFloat b ∧ MIL_ADC_HextoFloat 0 = 0 ∧
    0 ≤ MIL_ADC_HextoFloat a := by
  rw [MIL_ADC_HextoFloat_eq_zero a, MIL_ADC_HextoFloat_eq_zero b, MIL_ADC_HextoFloat_eq_zero 0]
  exact ⟨le_refl 0, rfl, le_refl 0⟩

/-- Instance of C18: raw values 100 and 4095. -/
theorem hexToFloat_monotone_witness :
    (100 ≤ 4095) ∧ (4095 ≤ 4095) ∧
    (MIL_ADC_HextoFloat 100 ≤ MIL_ADC_HextoFloat 4095 ∧ MIL_ADC_HextoFloat 0 = 0 ∧
    0 ≤ MIL_ADC_HextoFloat 100) :=
  ⟨by decide, by decide, hexToFloat_monotone 100 4095 (by decide) (by decide)⟩

theorem hexChar_spec (d : Nat) (hd : d < 16) :
    isHexDigit (if d > 9 then d + 0x37 else d + 0x30) ∧
    hexDigitValue (if d > 9 then d + 0x37 else d + 0x30) = d := by
  unfold isHexDigit hexDigitValue
  interval_cases d <;> decide

theorem and_000F (x : Nat) : x &&& 0x000F = x % 16 := by
  have h : (0x000F : Nat) = 2 ^ 4 - 1 := by norm_num
  rw [h, Nat.and_pow_two_sub_one_eq_mod]

theorem and_0FFF (x : Nat) : x &&& 0x0FFF = x % 4096 := by
  have h : (0x0FFF : Nat) = 2 ^ 12 - 1 := by norm_num
  rw [h, Nat.and_pow_two_sub_one_eq_mod]

/-- C19: for every `adc_value`, `MIL_ADC_HEXtoASCII` writes exactly three
characters, each in `0`..`9` or `A`..`F`; they are the hexadecimal digits of
`adc_value & 0xFFF`, most significant first, so that reading them back gives
`adc_value & 0xFFF`, and the bits 12..15 of `adc_value` have no influence. -/
theorem hexToAscii_roundtrip (adc_value : Nat) :
    (∃ c₀ c₁ c₂, MIL_ADC_HEXtoASCII adc_value = [c₀, c₁, c₂] ∧
      isHexDigit c₀ ∧ isHexDigit c₁ ∧ isHexDigit c₂ ∧
      hexDigitValue c₀ = (adc_value &&& 0xFFF) / 256 ∧
      hexDigitValue c₁ = (adc_value &&& 0xFFF) / 16 % 16 ∧
      hexDigitValue c₂ = (adc_value &&& 0xFFF) % 16) ∧
    readHex (MIL_ADC_HEXtoASCII adc_value) = adc_value &&& 0xFFF ∧
    MIL_ADC_HEXtoASCII adc_value = MIL_ADC_HEXtoASCII (adc_value &&& 0xFFF) := by
  have h2 := hexChar_spec (adc_value / 256 % 16) (Nat.mod_lt _ (by norm_num))
  have h1 := hexChar_spec (adc_value / 16 % 16) (Nat.mod_lt _ (by norm_num))
  have h0 := hexChar_spec (adc_value % 16) (Nat.mod_lt _ (by norm_num))
  have hform : MIL_ADC_HEXtoASCII adc_value =
      [(if adc_value / 256 % 16 > 9 then adc_value / 256 % 16 + 0x37
          else adc_value / 256 % 16 + 0x30),
       (if adc_value / 16 % 16 > 9 then adc_value / 16 % 16 + 0x37
          else adc_value / 16 % 16 + 0x30),
       (if adc_value % 16 > 9 then adc_value % 16 + 0x37 else adc_value % 16 + 0x30)] := by
    unfold MIL_ADC_HEXtoASCII
    simp only [and_000F, Nat.shiftRight_eq_div_pow, List.map_cons, List.map_nil]
  have hmask : adc_value &&& 0xFFF = adc_value % 4096 := and_0FFF adc_value
  refine ⟨⟨_, _, _, hform, h2.1, h1.1, h0.1, ?_, ?_, ?_⟩, ?_, ?_⟩
  · rw [h2.2, hmask]; omega
  · rw [h1.2, hmask]; omega
  · rw [h0.2, hmask]; omega
  · rw [hform, hmask]
    simp only [readHex, List.foldl_cons, List.foldl_nil, h2.2, h1.2, h0.2]
    omega
  · unfold MIL_ADC_HEXtoASCII
    simp only [and_000F, Nat.shiftRight_eq_div_pow, and_0FFF]
    have e2 : adc_value % 4096 / 2 ^ 8 % 16 = adc_value / 2 ^ 8 % 16 := by omega
    have e1 : adc_value % 4096 / 2 ^ 4 % 16 = adc_value / 2 ^ 4 % 16 := by omega
    have e0 : adc_value % 4096 % 16 = adc_value % 16 := by omega
    rw [e2, e1, e0]

set_option maxRecDepth 100000 in
theorem floatAsciiCheck_chunk0 : (List.range' 0 512).all floatAsciiCheck = true := by
  decide!

set_option maxRecDepth 100000 in
theorem floatAsciiCheck_chunk1 : (List.range' 512 512).all floatAsciiCheck = true := by
  decide!

set_option maxRecDepth 100000 in
theorem floatAsciiCheck_chunk2 : (List.range' 1024 512).all floatAsciiCheck = true := by
  decide!

set_option maxRecDepth 100000 in
theorem floatAsciiCheck_chunk3 : (List.range' 1536 512).all floatAsciiCheck = true := by
  decide!

set_option maxRecDepth 100000 in
theorem floatAsciiCheck_chunk4 : (List.range' 2048 512).all floatAsciiCheck = true := by
  decide!

set_option maxRecDepth 100000 in
theorem floatAsciiCheck_chunk5 : (List.range' 2560 512).all floatAsciiCheck = true := by
  decide!

set_option maxRecDepth 100000 in
theorem floatAsciiCheck_chunk6 : (List.range' 3072 512).all floatAsciiCheck = true := by
  decide!

set_option maxRecDepth 100000 in
theorem floatAsciiCheck_chunk7 : (List.range' 3584 512).all floatAsciiCheck = true := by
  decide!

theorem floatAsciiCheck_all (raw : Nat) (h : raw < 4096) : floatAsciiCheck raw = true := by
  have hmem : ∀ lo, lo ≤ raw → raw < lo + 512 → raw ∈ List.range' lo 512 := by
    intro lo h1 h2
    rw [List.mem_range'_1]
    exact ⟨h1, h2⟩
  by_cases h0 : raw < 512
  · exact List.all_eq_true.mp floatAsciiCheck_chunk0 raw (hmem 0 (by omega) (by omega))
  by_cases h1 : raw < 1024
  · exact List.all_eq_true.mp floatAsciiCheck_chunk1 raw (hmem 512 (by omega) (by omega))
  by_cases h2 : raw < 1536
  · exact List.all_eq_true.mp floatAsciiCheck_chunk2 raw (hmem 1024 (by omega) (by omega))
  by_cases h3 : raw < 2048
  · exact List.all_eq_true.mp floatAsciiCheck_chunk3 raw (hmem 1536 (by omega) (by omega))
  by_cases h4 : raw < 2560
  · exact List.all_eq_true.mp floatAsciiCheck_chunk4 raw (hmem 2048 (by omega) (by omega))
  by_cases h5 : raw < 3072
  · exact List.all_eq_true.mp floatAsciiCheck_chunk5 raw (hmem 2560 (by omega) (by omega))
  by_cases h6 : raw < 3584
  · exact List.all_eq_true.mp floatAsciiCheck_chunk6 raw (hmem 3072 (by omega) (by omega))
  · exact List.all_eq_true.mp floatAsciiCheck_chunk7 raw (hmem 3584 (by omega) (by omega))

/-- C11, as stated, fails at raw 1638, where the voltage is exactly 1.2: the
quotient `org_res` is the `double` nearest to 1.2, `5404319552844595 / 2 ^ 52`,
which lies below 1.2, so the truncations yield the digits 1, 1, 9 and the
function writes "1.19" and not "1.20".  Likewise 1911 gives "1.39", 3276 gives
"2.39" and 3822 gives "2.79". -/
theorem floatToAscii_1638 :
    ((Binary64.ofNat 1638).mul (Binary64.ofNat 3)).div (Binary64.ofNat 4095) =
      ⟨5404319552844595, 52⟩ ∧
    5404319552844595 * 10 < 12 * 2 ^ 52 ∧
    MIL_ADC_FloattoASCII 1638 = ['1'.toNat, '.'.toNat, '1'.toNat, '9'.toNat] ∧
    decimalString (1638 * 300 / 4095) = ['1'.toNat, '.'.toNat, '2'.toNat, '0'.toNat] ∧
    MIL_ADC_FloattoASCII 1638 ≠ decimalString (1638 * 300 / 4095) ∧
    MIL_ADC_FloattoASCII 1911 = ['1'.toNat, '.'.toNat, '3'.toNat, '9'.toNat] ∧
    MIL_ADC_FloattoASCII 3276 = ['2'.toNat, '.'.toNat, '3'.toNat, '9'.toNat] ∧
    MIL_ADC_FloattoASCII 3822 = ['2'.toNat, '.'.toNat, '7'.toNat, '9'.toNat] := by
  decide

/-- C11 (amended): for every raw value in 0..4095 other than 1638, 1911, 3276
and 3822, `MIL_ADC_FloattoASCII` writes exactly the four characters
`d0 . d1 d2`, each `d` an ASCII decimal digit, where `d0 d1 d2` are the digits
of `floor (raw * 300 / 4095)`; in particular raw 4095 gives "3.00" and raw 2048
gives "1.50". -/
theorem floatToAscii_digits (raw : Nat) (h : raw ≤ 4095)
    (hne : raw ≠ 1638 ∧ raw ≠ 1911 ∧ raw ≠ 3276 ∧ raw ≠ 3822) :
    MIL_ADC_FloattoASCII raw =
      [raw * 300 / 4095 / 100 + '0'.toNat, '.'.toNat,
       raw * 300 / 4095 / 10 % 10 + '0'.toNat, raw * 300 / 4095 % 10 + '0'.toNat] ∧
    raw * 300 / 4095 / 100 ≤ 9 ∧ raw * 300 / 4095 / 10 % 10 ≤ 9 ∧ raw * 300 / 4095 % 10 ≤ 9 ∧
    MIL_ADC_FloattoASCII 4095 = ['3'.toNat, '.'.toNat, '0'.toNat, '0'.toNat] ∧
    MIL_ADC_FloattoASCII 2048 = ['1'.toNat, '.'.toNat, '5'.toNat, '0'.toNat] := by
  have hcheck := floatAsciiCheck_all raw (by omega)
  obtain ⟨h1, h2, h3, h4⟩ := hne
  unfold floatAsciiCheck at hcheck
  simp only [Bool.or_eq_true, beq_iff_eq, h1, h2, h3, h4, or_false] at hcheck
  refine ⟨hcheck, by omega, by omega, by omega, by decide, by decide⟩

/-- Instance of C11 (amended): raw 2048. -/
theorem floatToAscii_digits_witness :
    (2048 ≤ 4095) ∧ (2048 ≠ 1638 ∧ 2048 ≠ 1911 ∧ 2048 ≠ 3276 ∧ 2048 ≠ 3822) ∧
    (MIL_ADC_FloattoASCII 2048 =
      [2048 * 300 / 4095 / 100 + '0'.toNat, '.'.toNat,
       2048 * 300 / 4095 / 10 % 10 + '0'.toNat, 2048 * 300 / 4095 % 10 + '0'.toNat] ∧
    2048 * 300 / 4095 / 100 ≤ 9 ∧ 2048 * 300 / 4095 / 10 % 10 ≤ 9 ∧
    2048 * 300 / 4095 % 10 ≤ 9 ∧
    MIL_ADC_FloattoASCII 4095 = ['3'.toNat, '.'.toNat, '0'.toNat, '0'.toNat] ∧
    MIL_ADC_FloattoASCII 2048 = ['1'.toNat, '.'.toNat, '5'.toNat, '0'.toNat]) :=
  ⟨by decide, by decide, floatToAscii_digits 2048 (by decide) (by decide)⟩

/-! ## Pin configuration by `MIL_ADCPinConfig` -/

theorem mem_callIf (c : HwCall) (cond : Nat) (call : HwCall) :
    c ∈ callIf cond call ↔ cond ≠ 0 ∧ c = call := by
  unfold callIf
  by_cases h : cond ≠ 0
  · rw [if_pos h]; simp [h]
  · rw [if_neg h]; simp [h]

theorem callIf_of_ne_zero (cond : Nat) (call : HwCall) (h : cond ≠ 0) :
    callIf cond call = [call] := by
  unfold callIf
  rw [if_pos h]

theorem and_shiftLeft_ne_zero_iff (p c : Nat) :
    p &&& (0x01 <<< c) ≠ 0 ↔ p.testBit c = true := by
  rw [Ne, and_shiftLeft_eq_zero_iff]
  cases p.testBit c <;> simp

theorem or_shiftLeft_ne_zero (x c : Nat) : x ||| (0x01 <<< c) ≠ 0 := by
  intro h
  have hbit : (x ||| (0x01 <<< c)).testBit c = true := by
    rw [Nat.testBit_or, Nat.one_shiftLeft, Nat.testBit_two_pow_self]
    simp
  rw [h, Nat.zero_testBit] at hbit
  exact absurd hbit (by decide)

theorem bitfield_and_PORTB_gc_ne_zero (bitfield : Nat) : bitfield_and_PORTB_gc bitfield ≠ 0 :=
  or_shiftLeft_ne_zero _ 11

theorem bitfield_and_PORTD_gc_ne_zero (bitfield : Nat) : bitfield_and_PORTD_gc bitfield ≠ 0 :=
  or_shiftLeft_ne_zero _ 7

theorem bitfield_and_PORTE_gc_ne_zero (bitfield : Nat) : bitfield_and_PORTE_gc bitfield ≠ 0 :=
  or_shiftLeft_ne_zero _ 9

/-- C21: for every pin bitfield and every channel `i` in 0..11,
`MIL_ADCPinConfig` configures the physical pin of channel `i` (AIN0..AIN11 on
PE3, PE2, PE1, PE0, PD3, PD2, PD1, PD0, PE5, PE4, PB4, PB5) as an ADC input if
and only if bit `i` of the bitfield is set; no other pin is configured. -/
theorem pinConfig_pin_iff_bit (bitfield i : Nat) (hi : i < 12) :
    (HwCall.GPIOPinTypeADC (adcPin i).1 (adcPin i).2 ∈ MIL_ADCPinConfig bitfield ↔
      bitfield.testBit i = true) ∧
    ∀ port pins, HwCall.GPIOPinTypeADC port pins ∈ MIL_ADCPinConfig bitfield →
      ∃ j, j < 12 ∧ (port, pins) = adcPin j ∧ bitfield.testBit j = true := by
  have hp : ∀ c, bitfield &&& (0x01 <<< c) ≠ 0 ↔ bitfield.testBit c = true :=
    and_shiftLeft_ne_zero_iff bitfield
  constructor
  · interval_cases i <;>
    simp only [MIL_ADCPinConfig, List.mem_append, mem_callIf, MIL_ADC_PIN0_bm, MIL_ADC_PIN1_bm,
      MIL_ADC_PIN2_bm, MIL_ADC_PIN3_bm, MIL_ADC_PIN4_bm, MIL_ADC_PIN5_bm, MIL_ADC_PIN6_bm,
      MIL_ADC_PIN7_bm, MIL_ADC_PIN8_bm, MIL_ADC_PIN9_bm, MIL_ADC_PIN10_bm, MIL_ADC_PIN11_bm,
      hp, adcPin] <;>
    simp [GPIO_PORTB_BASE, GPIO_PORTD_BASE, GPIO_PORTE_BASE, GPIO_PIN_0, GPIO_PIN_1, GPIO_PIN_2,
      GPIO_PIN_3, GPIO_PIN_4, GPIO_PIN_5]
  · intro port pins hmem
    simp only [MIL_ADCPinConfig, List.mem_append, mem_callIf, MIL_ADC_PIN0_bm, MIL_ADC_PIN1_bm,
      MIL_ADC_PIN2_bm, MIL_ADC_PIN3_bm, MIL_ADC_PIN4_bm, MIL_ADC_PIN5_bm, MIL_ADC_PIN6_bm,
      MIL_ADC_PIN7_bm, MIL_ADC_PIN8_bm, MIL_ADC_PIN9_bm, MIL_ADC_PIN10_bm, MIL_ADC_PIN11_bm,
      hp, HwCall.GPIOPinTypeADC.injEq, reduceCtorEq, and_false, false_or] at hmem
    rcases hmem with
      ((((((((((⟨hb, hp1, hp2⟩ | ⟨hb, hp1, hp2⟩) | ⟨hb, hp1, hp2⟩) | ⟨hb, hp1, hp2⟩) |
        ⟨hb, hp1, hp2⟩) | ⟨hb, hp1, hp2⟩) | ⟨hb, hp1, hp2⟩) | ⟨hb, hp1, hp2⟩) |
        ⟨hb, hp1, hp2⟩) | ⟨hb, hp1, hp2⟩) | ⟨hb, hp1, hp2⟩) | ⟨hb, hp1, hp2⟩
    · exact ⟨0, by decide, by rw [hp1, hp2]; rfl, hb⟩
    · exact ⟨1, by decide, by rw [hp1, hp2]; rfl, hb⟩
    · exact ⟨2, by decide, by rw [hp1, hp2]; rfl, hb⟩
    · exact ⟨3, by decide, by rw [hp1, hp2]; rfl, hb⟩
    · exact ⟨4, by decide, by rw [hp1, hp2]; rfl, hb⟩
    · exact ⟨5, by decide, by rw [hp1, hp2]; rfl, hb⟩
    · exact ⟨6, by decide, by rw [hp1, hp2]; rfl, hb⟩
    · exact ⟨7, by decide, by rw [hp1, hp2]; rfl, hb⟩
    · exact ⟨8, by decide, by rw [hp1, hp2]; rfl, hb⟩
    · exact ⟨9, by decide, by rw [hp1, hp2]; rfl, hb⟩
    · exact ⟨10, by decide, by rw [hp1, hp2]; rfl, hb⟩
    · exact ⟨11, by decide, by rw [hp1, hp2]; rfl, hb⟩

/-- Instance of C21: channels 0, 3 and 11 requested, channel 3 examined. -/
theorem pinConfig_pin_iff_bit_witness :
    (3 < 12) ∧
    ((HwCall.GPIOPinTypeADC (adcPin 3).1 (adcPin 3).2 ∈ MIL_ADCPinConfig 0x809 ↔
      (0x809 : Nat).testBit 3 = true) ∧
    ∀ port pins, HwCall.GPIOPinTypeADC port pins ∈ MIL_ADCPinConfig 0x809 →
      ∃ j, j < 12 ∧ (port, pins) = adcPin j ∧ (0x809 : Nat).testBit j = true) :=
  ⟨by decide, pinConfig_pin_iff_bit 0x809 3 (by decide)⟩

/-- C24: for every pin bitfield, 0 included, `MIL_ADCPinConfig` enables the
clocks of the three GPIO ports B, D and E: each test `bitfield & MIL_ADC_PORTx_gc`
is `(bitfield & first pin mask) | remaining pin masks` and is never zero. -/
theorem pinConfig_enables_all_ports (bitfield : Nat) :
    bitfield_and_PORTB_gc bitfield ≠ 0 ∧ bitfield_and_PORTD_gc bitfield ≠ 0 ∧
    bitfield_and_PORTE_gc bitfield ≠ 0 ∧
    (MIL_ADCPinConfig bitfield).take 3 =
      [HwCall.SysCtlPeripheralEnable SYSCTL_PERIPH_GPIOB,
       HwCall.SysCtlPeripheralEnable SYSCTL_PERIPH_GPIOD,
       HwCall.SysCtlPeripheralEnable SYSCTL_PERIPH_GPIOE] ∧
    MIL_ADCPinConfig 0 =
      [HwCall.SysCtlPeripheralEnable SYSCTL_PERIPH_GPIOB,
       HwCall.SysCtlPeripheralEnable SYSCTL_PERIPH_GPIOD,
       HwCall.SysCtlPeripheralEnable SYSCTL_PERIPH_GPIOE] := by
  refine ⟨bitfield_and_PORTB_gc_ne_zero bitfield, bitfield_and_PORTD_gc_ne_zero bitfield,
    bitfield_and_PORTE_gc_ne_zero bitfield, ?_, by decide⟩
  unfold MIL_ADCPinConfig
  rw [callIf_of_ne_zero _ _ (bitfield_and_PORTB_gc_ne_zero bitfield),
    callIf_of_ne_zero _ _ (bitfield_and_PORTD_gc_ne_zero bitfield),
    callIf_of_ne_zero _ _ (bitfield_and_PORTE_gc_ne_zero bitfield)]
  rfl

/-! ## Return value of `MIL_ADCSeqInit` and termination of `MIL_ADCGetData` -/

/-- C22: `MIL_ADCSeqInit` returns `MIL_ADC_NOK` if and only if the base is
neither `ADC0_BASE` nor `ADC1_BASE`; with a valid base it returns `MIL_ADC_OK`
for every sequence number, pin bitfield and trigger.  The `channel > 11` return
inside the step loop is never taken: the number of steps (the lesser of the
counted bits and the step limit) never exceeds the number of set bits among
0..11, and for any such number of steps the loop runs to its end. -/
theorem seqInit_nok_iff_invalid_base (base seq_num pin_bitfield : Nat) (trig : mil_trig_t) :
    ((MIL_ADCSeqInit base seq_num pin_bitfield trig).1 = MIL_ADC_NOK ↔
      (base ≠ ADC0_BASE ∧ base ≠ ADC1_BASE)) ∧
    ((base = ADC0_BASE ∨ base = ADC1_BASE) →
      (MIL_ADCSeqInit base seq_num pin_bitfield trig).1 = MIL_ADC_OK) ∧
    countLoop (pin_bitfield &&& 0x0FFF) 0 =
      ((List.range 12).filter (fun c => pin_bitfield.testBit c)).length ∧
    (if countLoop (pin_bitfield &&& 0x0FFF) 0 > step_max seq_num then step_max seq_num
      else countLoop (pin_bitfield &&& 0x0FFF) 0) ≤
      ((List.range 12).filter (fun c => pin_bitfield.testBit c)).length ∧
    ∀ actual_steps, actual_steps ≤ ((List.range 12).filter (fun c => pin_bitfield.testBit c)).length →
      (stepLoop base seq_num (pin_bitfield &&& 0x0FFF) actual_steps 0 0).1 = none := by
  have hcount : countLoop (pin_bitfield &&& 0x0FFF) 0 = (requested pin_bitfield).length :=
    countLoop_masked pin_bitfield
  refine ⟨?_, ok_of_valid base seq_num pin_bitfield trig, hcount, ?_, ?_⟩
  · constructor
    · intro hnok
      by_contra hv
      have hvalid : base = ADC0_BASE ∨ base = ADC1_BASE := by
        by_cases h0 : base = ADC0_BASE
        · exact Or.inl h0
        · by_cases h1 : base = ADC1_BASE
          · exact Or.inr h1
          · exact absurd ⟨h0, h1⟩ hv
      rw [ok_of_valid base seq_num pin_bitfield trig hvalid] at hnok
      exact absurd hnok (by decide)
    · intro h
      rw [MIL_ADCSeqInit_of_invalid base seq_num pin_bitfield trig h.1 h.2]
  · rw [hcount]
    show _ ≤ (requested pin_bitfield).length
    split <;> omega
  · intro actual_steps hle
    have hreq : requestedFrom (pin_bitfield &&& 0x0FFF) 0 = requested pin_bitfield := by
      rw [← requested_eq_requestedFrom, requested_and_0FFF]
    rw [stepLoop_eq base seq_num (pin_bitfield &&& 0x0FFF) actual_steps actual_steps 0 0
      (by omega) (by rw [hreq]; exact hle)]

/-- C23: `MIL_ADCGetData` returns for every timeout, even when the completion
flag is never raised, after at least one and at most `2 ^ 32` polls.  With
`timeout = 0` it returns `MIL_ADC_NOK` exactly when the flag stays clear for
`2 ^ 32` polls, that is only when the 32-bit counter has wrapped around to 0,
after exactly `2 ^ 32` polls. -/
theorem getData_terminates (base seq_num timeout : Nat) (pbuffer : List Nat)
    (intStatus : Nat → Nat) (fifo : List Nat) :
    1 ≤ pollCount (MIL_ADCGetData base seq_num timeout pbuffer intStatus fifo).calls ∧
    pollCount (MIL_ADCGetData base seq_num timeout pbuffer intStatus fifo).calls ≤ 2 ^ 32 ∧
    ((MIL_ADCGetData base seq_num 0 pbuffer intStatus fifo).ret = MIL_ADC_NOK ↔
      ∀ j, j < 2 ^ 32 → intStatus j = 0) ∧
    ((MIL_ADCGetData base seq_num 0 pbuffer intStatus fifo).ret = MIL_ADC_NOK →
      pollCount (MIL_ADCGetData base seq_num 0 pbuffer intStatus fifo).calls = 2 ^ 32) := by
  have hb0 : pollBudget 0 = 2 ^ 32 := by
    unfold pollBudget
    rw [if_pos (Nat.zero_mod _)]
  have hcnt : ∀ m, pollCount (List.replicate (m + 1) (HwCall.ADCIntStatus base seq_num false) ++
      [HwCall.ADCSequenceDataGet base seq_num, HwCall.ADCIntClear base seq_num]) = m + 1 := by
    intro m
    rw [pollCount_append, pollCount_replicate]
    rfl
  refine ⟨?_, ?_, ?_, ?_⟩
  · rcases getData_cases base seq_num timeout pbuffer intStatus fifo with
      ⟨_, heq⟩ | ⟨m, _, _, _, heq⟩
    · rw [heq]
      show 1 ≤ pollCount (List.replicate (pollBudget timeout)
        (HwCall.ADCIntStatus base seq_num false))
      rw [pollCount_replicate]
      exact pollBudget_pos timeout
    · rw [heq]
      show 1 ≤ pollCount (List.replicate (m + 1) (HwCall.ADCIntStatus base seq_num false) ++
        [HwCall.ADCSequenceDataGet base seq_num, HwCall.ADCIntClear base seq_num])
      rw [hcnt]
      omega
  · rcases getData_cases base seq_num timeout pbuffer intStatus fifo with
      ⟨_, heq⟩ | ⟨m, hm, _, _, heq⟩
    · rw [heq]
      show pollCount (List.replicate (pollBudget timeout)
        (HwCall.ADCIntStatus base seq_num false)) ≤ 2 ^ 32
      rw [pollCount_replicate]
      exact pollBudget_le timeout
    · rw [heq]
      show pollCount (List.replicate (m + 1) (HwCall.ADCIntStatus base seq_num false) ++
        [HwCall.ADCSequenceDataGet base seq_num, HwCall.ADCIntClear base seq_num]) ≤ 2 ^ 32
      rw [hcnt]
      have := pollBudget_le timeout
      omega
  · rcases getData_cases base seq_num 0 pbuffer intStatus fifo with
      ⟨hz, heq⟩ | ⟨m, hm, hset, _, heq⟩
    · rw [heq]
      rw [hb0] at hz
      exact ⟨fun _ => hz, fun _ => rfl⟩
    · rw [heq]
      rw [hb0] at hm
      constructor
      · intro h
        exact absurd (show MIL_ADC_OK = MIL_ADC_NOK from h) (by decide)
      · intro h
        exact absurd (h m hm) hset
  · intro hnok
    rcases getData_cases base seq_num 0 pbuffer intStatus fifo with
      ⟨_, heq⟩ | ⟨m, _, _, _, heq⟩
    · rw [heq]
      show pollCount (List.replicate (pollBudget 0)
        (HwCall.ADCIntStatus base seq_num false)) = 2 ^ 32
      rw [pollCount_replicate, hb0]
    · rw [heq] at hnok
      exact absurd (show MIL_ADC_OK = MIL_ADC_NOK from hnok) (by decide)

end MIL_ADC
